import Mathlib

/-! Verification of `idaes/core/util/initialization.py`.

Shallow embedding of the sequential finite-element initializer
(`initialize_by_time_element`), the port value propagator (`propagate_state`)
and the indexed-block batch solve (`solve_indexed_blocks`).

Modelling conventions:
* A component (constraint or variable) is identified by its position in the
  model's component list; this plays the role of Python's `id()` keys.
* Time points are identified with their 1-based position in the
  `ContinuousSet` (`time[k]`, `k = 1 .. nfe*ncp+1`); a component indexed by
  time carries `timeIdx = some k`, a time-unindexed component carries `none`.
  `timeIdx` is immutable: no operation of the program changes it.
* The external solver is an oracle: `solveOpt k` tells whether the `k`-th
  solve call (call `0` is the consistent-initial-conditions solve, call `i`
  is the solve of finite element `i`) terminates optimally, and
  `solveVals k j` is the value the solver loads into the `j`-th (unfixed)
  variable on call `k`.  `degrees_of_freedom` is likewise an oracle
  `dof : Model → Int`.
* The helpers imported from `idaes.core.util.dyn_utils`
  (`get_activity_dict`, `deactivate_model_at`,
  `deactivate_constraints_unindexed_by`, `fix_vars_unindexed_by`,
  `get_derivatives_at`, `copy_values_at_time`) are not part of the source
  under verification; they are modelled from the specification's §4.3–§4.5
  contracts, as noted on each definition.
-/

/-- A constraint datum: the time point it is indexed by (if any) and its
`active` flag. -/
structure ConData where
  timeIdx : Option Nat
  active : Bool
deriving DecidableEq, Repr

/-- A variable datum: the component (name) it belongs to, the time point it
is indexed by (if any), its current value (`none` = Python `None`) and its
`fixed` flag. -/
structure VarData where
  comp : Nat
  timeIdx : Option Nat
  value : Option Int
  fixed : Bool
deriving DecidableEq, Repr

/-- The flowsheet model: a list of constraints and a list of variables.
Positions in the lists are the component identities. -/
structure Model where
  cons : List ConData
  vars : List VarData
deriving DecidableEq, Repr

/-- Map a function over a list together with the position of each element,
starting positions at `n`. -/
def mapWithIdx (f : Nat → α → α) : Nat → List α → List α
  | _, [] => []
  | n, a :: l => f n a :: mapWithIdx f (n+1) l

/-- Pointwise update of all constraints (position-aware). -/
def Model.mapConsIdx (m : Model) (f : Nat → ConData → ConData) : Model :=
  { m with cons := mapWithIdx f 0 m.cons }

/-- Pointwise update of all variables (position-aware). -/
def Model.mapVarsIdx (m : Model) (f : Nat → VarData → VarData) : Model :=
  { m with vars := mapWithIdx f 0 m.vars }

/-- `active` flag of constraint `i` (`false` when out of range). -/
def Model.conActive (m : Model) (i : Nat) : Bool :=
  (m.cons[i]?.map ConData.active).getD false

/-- Time index of constraint `i` (`none` when out of range). -/
def Model.conTimeIdx (m : Model) (i : Nat) : Option Nat :=
  (m.cons[i]?.map ConData.timeIdx).getD none

/-- `fixed` flag of variable `i` (`false` when out of range). -/
def Model.varFixed (m : Model) (i : Nat) : Bool :=
  (m.vars[i]?.map VarData.fixed).getD false

/-- Value of variable `i` (`none` when out of range or unassigned). -/
def Model.varValue (m : Model) (i : Nat) : Option Int :=
  m.vars[i]?.bind VarData.value

/-- Time index of variable `i` (`none` when out of range). -/
def Model.varTimeIdx (m : Model) (i : Nat) : Option Nat :=
  (m.vars[i]?.map VarData.timeIdx).getD none

/-- Fix variable `d` (set its `fixed` flag; Python `v.fix()` keeps the
current value). -/
def Model.fixVarIdx (m : Model) (d : Nat) : Model :=
  m.mapVarsIdx (fun j v => if j = d then { v with fixed := true } else v)

/-- Unfix variable `d` (Python `v.unfix()`). -/
def Model.unfixVarIdx (m : Model) (d : Nat) : Model :=
  m.mapVarsIdx (fun j v => if j = d then { v with fixed := false } else v)

/-- Does the optional time index lie in the list of time points? -/
def optMem (o : Option Nat) (pts : List Nat) : Bool :=
  match o with
  | none => false
  | some t => pts.contains t

/-- Python `range(a, b)` = `[a, a+1, …, b-1]`. -/
def pyRange (a b : Nat) : List Nat := List.range' a (b - a)

/-- Errors raised by the initializer, one constructor per `raise` site of
`initialize_by_time_element` (§7's taxonomy).  The element-solve failure
carries the finite-element index, which the code reports at the raise site
(`init_log.error('Failed to solve finite element {i}')` immediately before
raising, with a raise-site message distinct from the consistent-IC one). -/
inductive InitError
  | notDiscretized
  | legendreUnsupported
  | forwardUnsupported
  | centralUnsupported
  | unrecognizedScheme
  | nonzeroDOF
  | icSolveFailed
  | elementSolveFailed (i : Nat)
deriving DecidableEq, Repr

/-- Discretization schemes of the time domain. -/
inductive Scheme
  | lagrangeRadau
  | lagrangeLegendre
  | backwardDifference
  | forwardDifference
  | centralDifference
  | unrecognized
deriving DecidableEq, Repr

/-- Outcome of one run: terminal error (`none` = `Done`), final model, and
the ordered list of solver calls that were made (`0` = consistent-IC solve,
`i` = solve of finite element `i`). -/
structure RunResult where
  err : Option InitError
  final : Model
  calls : List Nat
deriving DecidableEq, Repr

/-- Modelled from the spec: `get_activity_dict` (§4.3 `snapshotActivity`)
"records active/inactive for every constraint, independent of time
indexing"; the dict keyed by `id()` becomes a function from component
position to its `active` flag at snapshot time. -/
def get_activity_dict (m : Model) : Nat → Bool :=
  fun i => m.conActive i

/-- Modelled from the spec: `deactivate_model_at` (§4.3 `deactivateExceptAt`)
"deactivates every time-indexed constraint at every point not in
`keepPoints`".  The returned `DeactivationRecord` maps a time point `t` to
the constraints indexed at `t`; since `timeIdx` is immutable, the record is
represented by the predicate `optMem c.timeIdx pts` wherever the code
iterates over `deactivated[t]`. -/
def deactivate_model_at (m : Model) (pts : List Nat) : Model :=
  m.mapConsIdx (fun _ c => if optMem c.timeIdx pts then { c with active := false } else c)

/-- Modelled from the spec: `deactivate_constraints_unindexed_by` (§4.3
`deactivateUnindexed`) deactivates the constraints not indexed by time and
returns the list of constraints it deactivated (those that were active),
"restored only once, at the very end of the run".  The returned list is
represented by its characteristic function over component positions. -/
def deactivate_constraints_unindexed_by (m : Model) : Model × (Nat → Bool) :=
  (m.mapConsIdx (fun _ c => if c.timeIdx = none then { c with active := false } else c),
   fun i => (m.cons[i]?.map (fun c => c.timeIdx == none && c.active)).getD false)

/-- Modelled from the spec: `fix_vars_unindexed_by` (§4.3 `fixUnindexed`)
fixes the variables not indexed by time and returns the list of variables it
fixed (those that were unfixed), "restored only once, at the very end of the
run". -/
def fix_vars_unindexed_by (m : Model) : Model × (Nat → Bool) :=
  (m.mapVarsIdx (fun _ v => if v.timeIdx = none then { v with fixed := true } else v),
   fun i => (m.vars[i]?.map (fun v => v.timeIdx == none && !v.fixed)).getD false)

/-- Modelled from the spec: `copy_values_at_time` (§4.5 `copyValues`)
"for every variable instance indexed at `sourcePoint`, copies its numeric
value into the corresponding instance at `destPoint`, skipping any
destination instance that is fixed" (`copy_fixed=False`).  Corresponding
instances share the same component name. -/
def copy_values_at_time (m : Model) (tTarget tSource : Nat) : Model :=
  m.mapVarsIdx (fun _ v =>
    if v.timeIdx = some tTarget && !v.fixed then
      { v with value :=
          ((m.vars.find? (fun w => w.comp == v.comp && w.timeIdx == some tSource)).bind
            VarData.value) }
    else v)

/-- Effect of one solver call: the solver loads a value into every unfixed
variable (oracle `vals`), leaving fixed flags and constraint activities
untouched. -/
def solveEffect (vals : Nat → Option Int) (m : Model) : Model :=
  m.mapVarsIdx (fun j v => if v.fixed then v else { v with value := vals j })

/-- Initial time point of finite element `i` (source:
`t_prev = time[(i-1)*ncp+1]`). -/
def tPrevIdx (i ncp : Nat) : Nat := (i-1)*ncp + 1

/-- Non-initial time points of finite element `i` (source:
`fe = [time[k] for k in range((i-1)*ncp+2, i*ncp+2)]`). -/
def feIdxs (i ncp : Nat) : List Nat := pyRange ((i-1)*ncp + 2) (i*ncp + 2)

/-- Source lines 350–359: first half of the fixing step.  For each
derivative variable `d` of the element's initial point, record its `fixed`
flag in `was_originally_fixed`, then `if not drv.value is None: drv.fix()`. -/
def fixDerivLoop (m : Model) (snap : Nat → Bool) : List Nat → Model × (Nat → Bool)
  | [] => (m, snap)
  | d :: rest =>
      let snap2 := fun x => if x = d then m.varFixed d else snap x
      let m2 := if (m.varValue d).isSome then m.fixVarIdx d else m
      fixDerivLoop m2 snap2 rest

/-- Source lines 360–363: second half of the fixing step.  For each
differential variable `dv`, record its `fixed` flag, then
`if not drv.value is None: dv.fix()` — note the gate reads `drv`, the loop
variable left over from the first loop (the last derivative of the list),
so it is the same boolean `gate` for the whole loop. -/
def fixDvarLoop (m : Model) (snap : Nat → Bool) (gate : Bool) : List Nat → Model × (Nat → Bool)
  | [] => (m, snap)
  | v :: rest =>
      let snap2 := fun x => if x = v then m.varFixed v else snap x
      let m2 := if gate then m.fixVarIdx v else m
      fixDvarLoop m2 snap2 gate rest

/-- Source lines 350–363: the whole fixing step at a finite element's
initial point.  `derivL`/`dvarL` are the positions of
`derivs_at_time[t_prev]` and `dvars_at_time[t_prev]` (pairwise associated).
Returns the model after fixing and the `was_originally_fixed` snapshot.
When `derivL = []` the second loop's gate never fires (in the program both
lists are built from the same pair list, so they are empty together). -/
def fixPairsStep (m : Model) (derivL dvarL : List Nat) : Model × (Nat → Bool) :=
  let p1 := fixDerivLoop m (fun _ => false) derivL
  let gate := match derivL.getLast? with
    | some d => (p1.1.varValue d).isSome
    | none => false
  fixDvarLoop p1.1 p1.2 gate dvarL

/-- Source lines 393–399: unfix each listed variable whose
`was_originally_fixed` entry is `false`. -/
def unfixLoop (m : Model) (snap : Nat → Bool) : List Nat → Model
  | [] => m
  | d :: rest => unfixLoop (if snap d then m else m.unfixVarIdx d) snap rest

/-- Source lines 338–343: reactivate, at the element's non-initial points,
every recorded component that was originally active. -/
def elemReact (snap : Nat → Bool) (fe : List Nat) (m : Model) : Model :=
  m.mapConsIdx (fun j c => if optMem c.timeIdx fe && snap j then { c with active := true } else c)

/-- Source lines 388–391: re-deactivate every component recorded at the
element's non-initial points. -/
def elemDeact (fe : List Nat) (m : Model) : Model :=
  m.mapConsIdx (fun _ c => if optMem c.timeIdx fe then { c with active := false } else c)

/-- Outcome of one finite-element iteration: terminal error (if any), the
model it left behind, the `was_originally_fixed` snapshot of its fixing
step, and the solver calls it made. -/
structure ElemOutcome where
  err : Option InitError
  model : Model
  wasFixed : Nat → Bool
  calls : List Nat

/-- Steps (a)–(e) of one per-element iteration (source lines 331–368):
compute the element layout, reactivate the element's recorded components
gated by the activity snapshot, run the fixing step at the element's
initial point, and seed the element's points from the initial point.
Returns the model ready for the degrees-of-freedom gate together with the
`was_originally_fixed` snapshot. -/
def elemPrep (ncp : Nat) (pairs : Nat → List (Nat × Nat))
    (snap : Nat → Bool) (m : Model) (i : Nat) : Model × (Nat → Bool) :=
  let tPrev := tPrevIdx i ncp
  let fe := feIdxs i ncp
  let m1 := elemReact snap fe m
  let p := fixPairsStep m1 ((pairs tPrev).map Prod.fst) ((pairs tPrev).map Prod.snd)
  (fe.foldl (fun mm t => copy_values_at_time mm t tPrev) p.1, p.2)

/-- Steps (h)–(i) of one per-element iteration (source lines 388–399):
re-deactivate the element's recorded components and unfix the pair
variables that were not originally fixed per the step-(d) snapshot. -/
def elemFinish (ncp : Nat) (pairs : Nat → List (Nat × Nat)) (i : Nat)
    (wasFixed : Nat → Bool) (m4 : Model) : Model :=
  let m5 := elemDeact (feIdxs i ncp) m4
  let m6 := unfixLoop m5 wasFixed ((pairs (tPrevIdx i ncp)).map Prod.fst)
  unfixLoop m6 wasFixed ((pairs (tPrevIdx i ncp)).map Prod.snd)

/-- Source lines 331–402: one iteration of the per-element loop
(steps (a)–(i) of §4.6), with the degrees-of-freedom gate (f) and the
element solve (g) in between. -/
def elementStep (ncp : Nat) (ignoreDof : Bool)
    (pairs : Nat → List (Nat × Nat)) (dof : Model → Int)
    (solveOpt : Nat → Bool) (solveVals : Nat → Nat → Option Int)
    (snap : Nat → Bool) (m : Model) (i : Nat) : ElemOutcome :=
  let p := elemPrep ncp pairs snap m i
  if !ignoreDof && (dof p.1 != 0) then
    ⟨some .nonzeroDOF, p.1, p.2, []⟩
  else
    let m4 := solveEffect (solveVals i) p.1
    if !(solveOpt i) then
      ⟨some (.elementSolveFailed i), m4, p.2, [i]⟩
    else
      ⟨none, elemFinish ncp pairs i p.2 m4, p.2, [i]⟩

/-- The per-element loop over the remaining finite-element indices. -/
def runElements (ncp : Nat) (ignoreDof : Bool)
    (pairs : Nat → List (Nat × Nat)) (dof : Model → Int)
    (solveOpt : Nat → Bool) (solveVals : Nat → Nat → Option Int)
    (snap : Nat → Bool) : Model → List Nat → RunResult
  | m, [] => ⟨none, m, []⟩
  | m, i :: rest =>
      let o := elementStep ncp ignoreDof pairs dof solveOpt solveVals snap m i
      match o.err with
      | some e => ⟨some e, o.model, o.calls⟩
      | none =>
          let r := runElements ncp ignoreDof pairs dof solveOpt solveVals snap o.model rest
          ⟨r.err, r.final, o.calls ++ r.calls⟩

/-- Steps 2–3 of §4.6 (source lines 284–298): deactivate the model at all
non-initial time points and run the consistent-initial-conditions solve
(solver call `0`). -/
def icSolvedModel (m : Model) (nfe ncp : Nat) (solveVals : Nat → Nat → Option Int) : Model :=
  solveEffect (solveVals 0) (deactivate_model_at m (pyRange 2 (nfe * ncp + 2)))

/-- Source lines 305–306: after the IC solve, also deactivate at
`time.first()`. -/
def m3of (m : Model) (nfe ncp : Nat) (solveVals : Nat → Nat → Option Int) : Model :=
  deactivate_model_at (icSolvedModel m nfe ncp solveVals) [1]

/-- The record of unindexed constraints deactivated at source line 310. -/
def conUnSnap (m : Model) (nfe ncp : Nat) (solveVals : Nat → Nat → Option Int) : Nat → Bool :=
  (deactivate_constraints_unindexed_by (m3of m nfe ncp solveVals)).2

/-- The model after source line 310. -/
def m4of (m : Model) (nfe ncp : Nat) (solveVals : Nat → Nat → Option Int) : Model :=
  (deactivate_constraints_unindexed_by (m3of m nfe ncp solveVals)).1

/-- The record of unindexed variables fixed at source line 311. -/
def varUnSnap (m : Model) (nfe ncp : Nat) (solveVals : Nat → Nat → Option Int) : Nat → Bool :=
  (fix_vars_unindexed_by (m4of m nfe ncp solveVals)).2

/-- The model entering the per-element loop (after source line 311:
"Now model is completely inactive"). -/
def loopEntry (m : Model) (nfe ncp : Nat) (solveVals : Nat → Nat → Option Int) : Model :=
  (fix_vars_unindexed_by (m4of m nfe ncp solveVals)).1

/-- Step 8 of §4.6 (source lines 404–413): after the loop, reactivate at
every time point each recorded component whose activity-snapshot entry is
true, reactivate the recorded unindexed constraints and unfix the recorded
unindexed variables. -/
def finalRestore (m : Model) (nfe ncp : Nat) (solveVals : Nat → Nat → Option Int)
    (mLoop : Model) : Model :=
  ((mLoop.mapConsIdx (fun j c =>
      if optMem c.timeIdx (pyRange 1 (nfe * ncp + 2)) && get_activity_dict m j then
        { c with active := true } else c)).mapConsIdx
    (fun j c => if conUnSnap m nfe ncp solveVals j then { c with active := true } else c)).mapVarsIdx
    (fun j v => if varUnSnap m nfe ncp solveVals j then { v with fixed := false } else v)

/-- Source lines 274–416: the body of `initialize_by_time_element` after
scheme validation (`ncp` already resolved).  Steps: entry DOF gate;
activity snapshot; deactivation away from `time.first()`; consistent-IC
solve (call `0`); deactivation at `time.first()`; deactivation/fixing of
time-unindexed components; the per-element loop; final snapshot-gated
reactivation and restoration of the unindexed components. -/
def runMain (m : Model) (nfe ncp : Nat) (ignoreDof : Bool)
    (pairs : Nat → List (Nat × Nat)) (dof : Model → Int)
    (solveOpt : Nat → Bool) (solveVals : Nat → Nat → Option Int) : RunResult :=
  if !ignoreDof && (dof m != 0) then ⟨some .nonzeroDOF, m, []⟩
  else if !(solveOpt 0) then ⟨some .icSolveFailed, icSolvedModel m nfe ncp solveVals, [0]⟩
  else
    let r := runElements ncp ignoreDof pairs dof solveOpt solveVals (get_activity_dict m)
               (loopEntry m nfe ncp solveVals) (pyRange 1 (nfe+1))
    match r.err with
    | some e => ⟨some e, r.final, 0 :: r.calls⟩
    | none => ⟨none, finalRestore m nfe ncp solveVals r.final, 0 :: r.calls⟩

/-- Source lines 233–262 + 274–416: `initialize_by_time_element`.
`discretized` is whether `time.get_discretization_info()` is non-empty;
`ncpIn` is the `ncp` entry of the discretization metadata (used only by the
Lagrange-Radau scheme; Backward Difference forces `ncp = 1`). -/
def initialize_by_time_element (m : Model) (discretized : Bool) (scheme : Scheme)
    (nfe ncpIn : Nat) (ignoreDof : Bool)
    (pairs : Nat → List (Nat × Nat)) (dof : Model → Int)
    (solveOpt : Nat → Bool) (solveVals : Nat → Nat → Option Int) : RunResult :=
  if !discretized then ⟨some .notDiscretized, m, []⟩
  else
    match scheme with
    | .lagrangeLegendre => ⟨some .legendreUnsupported, m, []⟩
    | .forwardDifference => ⟨some .forwardUnsupported, m, []⟩
    | .centralDifference => ⟨some .centralUnsupported, m, []⟩
    | .unrecognized => ⟨some .unrecognizedScheme, m, []⟩
    | .lagrangeRadau => runMain m nfe ncpIn ignoreDof pairs dof solveOpt solveVals
    | .backwardDifference => runMain m nfe 1 ignoreDof pairs dof solveOpt solveVals

/-- An element of the `blocks` argument of `solve_indexed_blocks`: either a
Pyomo `Block` (with an identifier) or some other object. -/
inductive PyObj
  | block (bid : Nat)
  | nonBlock
deriving DecidableEq, Repr

/-- Internal bookkeeping of the temporary aggregate `Block` of
`solve_indexed_blocks`: `_decl`, `_decl_order` and `_ctypes`. -/
structure TmpBlockState where
  decl : List (String × Nat)
  declOrder : List (Nat × Option Nat)
  ctypes : List (Nat × Nat × Nat)
deriving DecidableEq, Repr

/-- Exceptions that can escape `solve_indexed_blocks`. -/
inductive SibError
  | typeError
  | solverRaised
deriving DecidableEq, Repr

/-- Source lines 186–197: populate the temporary block's `_decl` and
`_decl_order` with the members of `blocks`; a non-`Block` member raises
`TypeError`, leaving the bookkeeping filled so far. -/
def sibBuild (nBlocks : Nat) (tmp : TmpBlockState) :
    Nat → List PyObj → Option SibError × TmpBlockState
  | _, [] => (none, tmp)
  | _, .nonBlock :: _ => (some .typeError, tmp)
  | i, .block bid :: rest =>
      let tmp2 : TmpBlockState :=
        { tmp with
          decl := tmp.decl ++ [("block_" ++ toString i, i)],
          declOrder := tmp.declOrder ++
            [(bid, if i < nBlocks - 1 then some (i+1) else none)] }
      sibBuild nBlocks tmp2 (i+1) rest

/-- Source lines 205–210: the `finally` block, resetting `_decl`,
`_decl_order` and `_ctypes` of the temporary block to empty. -/
def sibFinally (t : TmpBlockState) : TmpBlockState :=
  { t with decl := [], declOrder := [], ctypes := [] }

/-- Source lines 179–213: `solve_indexed_blocks` after the to-list
normalization.  `solverResult` is the external solver oracle (`.error`
models `solver.solve` raising).  Returns the function's outcome and the
final bookkeeping state of the temporary block. -/
def solve_indexed_blocks (blocks : List PyObj) (solverResult : Except Unit Nat) :
    Except SibError Nat × TmpBlockState :=
  let tryOutcome : Except SibError Nat × TmpBlockState :=
    match sibBuild blocks.length ⟨[], [], []⟩ 0 blocks with
    | (some e, tmp) => (.error e, tmp)
    | (none, tmp) =>
        let tmp2 := { tmp with ctypes := [(0, blocks.length - 1, blocks.length)] }
        match solverResult with
        | .error _ => (.error .solverRaised, tmp2)
        | .ok r => (.ok r, tmp2)
  (tryOutcome.1, sibFinally tryOutcome.2)

/-- One indexed instance of a port member variable. -/
structure VarInst where
  idx : Nat
  value : Option Int
  fixed : Bool
deriving DecidableEq, Repr

/-- A member of a `Port`: its name, whether it is a Pyomo `Var`, and its
indexed instances. -/
structure PortMember where
  name : Nat
  isVar : Bool
  insts : List VarInst
deriving DecidableEq, Repr

/-- The two `Port`s of an `Arc`. -/
structure ArcPorts where
  source : List PortMember
  destination : List PortMember
deriving DecidableEq, Repr

/-- Exceptions that can escape `propagate_state` (the `isinstance(stream,
Arc)` type check is enforced by the embedding's argument type). -/
inductive PropError
  | valueError
  | typeErrorMember
  | keyError
deriving DecidableEq, Repr

/-- Write `val` into the instance `idx` of the destination member named
`nm`, skipping it when fixed (source line 156–157). -/
def writeDest (dest : List PortMember) (nm idx : Nat) (val : Option Int) :
    List PortMember :=
  dest.map (fun d =>
    if d.name == nm then
      { d with insts := d.insts.map (fun j =>
          if j.idx == idx && !j.fixed then { j with value := val } else j) }
    else d)

/-- Source lines 151–157 (one source instance): look up the destination
member (`KeyError` if absent), require it to be a `Var` (`TypeError`
otherwise), look up the destination instance (`KeyError` if absent), and
assign the value unless the destination instance is fixed. -/
def copyInst (dest : List PortMember) (nm : Nat) (inst : VarInst) :
    Option PropError × List PortMember :=
  match dest.find? (fun d => d.name == nm) with
  | none => (some .keyError, dest)
  | some d =>
      if !d.isVar then (some .typeErrorMember, dest)
      else
        match d.insts.find? (fun j => j.idx == inst.idx) with
        | none => (some .keyError, dest)
        | some _ => (none, writeDest dest nm inst.idx inst.value)

/-- Source line 150: the loop over the indices of one source member. -/
def copyInsts (nm : Nat) : List PortMember → List VarInst → Option PropError × List PortMember
  | dest, [] => (none, dest)
  | dest, inst :: rest =>
      match copyInst dest nm inst with
      | (some e, d2) => (some e, d2)
      | (none, d2) => copyInsts nm d2 rest

/-- Source line 149: the loop over the members of the source port. -/
def copyMembers : List PortMember → List PortMember → Option PropError × List PortMember
  | dest, [] => (none, dest)
  | dest, srcM :: rest =>
      match copyInsts srcM.name dest srcM.insts with
      | (some e, d2) => (some e, d2)
      | (none, d2) => copyMembers d2 rest

/-- Source lines 121–157: `propagate_state`.  Returns the raised exception
(if any) together with the state of the arc's two ports on exit. -/
def propagate_state (stream : ArcPorts) (direction : String) :
    Option PropError × ArcPorts :=
  if direction = "forward" then
    let r := copyMembers stream.destination stream.source
    (r.1, { stream with destination := r.2 })
  else if direction = "backward" then
    let r := copyMembers stream.source stream.destination
    (r.1, { stream with source := r.2 })
  else
    (some .valueError, stream)


/-! ## Pointwise lemmas for the primitive operations -/

theorem mapWithIdx_getElem? (f : Nat → α → α) (n : Nat) (l : List α) (k : Nat) :
    (mapWithIdx f n l)[k]? = (l[k]?).map (f (n + k)) := by
  induction l generalizing n k with
  | nil => simp [mapWithIdx]
  | cons a l ih =>
      cases k with
      | zero => simp [mapWithIdx]
      | succ k =>
          have h : n + 1 + k = n + (k + 1) := by omega
          simp only [mapWithIdx, List.getElem?_cons_succ]
          rw [ih, h]

theorem mapConsIdx_get? (m : Model) (f : Nat → ConData → ConData) (i : Nat) :
    (m.mapConsIdx f).cons[i]? = (m.cons[i]?).map (f i) := by
  simp [Model.mapConsIdx, mapWithIdx_getElem?]

theorem mapVarsIdx_get? (m : Model) (f : Nat → VarData → VarData) (i : Nat) :
    (m.mapVarsIdx f).vars[i]? = (m.vars[i]?).map (f i) := by
  simp [Model.mapVarsIdx, mapWithIdx_getElem?]

theorem mapConsIdx_vars (m : Model) (f : Nat → ConData → ConData) :
    (m.mapConsIdx f).vars = m.vars := rfl

theorem mapVarsIdx_cons (m : Model) (f : Nat → VarData → VarData) :
    (m.mapVarsIdx f).cons = m.cons := rfl

theorem conActive_mapConsIdx (m : Model) (f : Nat → ConData → ConData) (i : Nat) :
    (m.mapConsIdx f).conActive i = ((m.cons[i]?).map (fun c => (f i c).active)).getD false := by
  simp only [Model.conActive, mapConsIdx_get?, Option.map_map]
  rfl

theorem conTimeIdx_mapConsIdx (m : Model) (f : Nat → ConData → ConData) (i : Nat) :
    (m.mapConsIdx f).conTimeIdx i = ((m.cons[i]?).map (fun c => (f i c).timeIdx)).getD none := by
  simp only [Model.conTimeIdx, mapConsIdx_get?, Option.map_map]
  rfl

theorem varFixed_mapVarsIdx (m : Model) (f : Nat → VarData → VarData) (i : Nat) :
    (m.mapVarsIdx f).varFixed i = ((m.vars[i]?).map (fun v => (f i v).fixed)).getD false := by
  simp only [Model.varFixed, mapVarsIdx_get?, Option.map_map]
  rfl

theorem varValue_mapVarsIdx (m : Model) (f : Nat → VarData → VarData) (i : Nat) :
    (m.mapVarsIdx f).varValue i = (m.vars[i]?).bind (fun v => (f i v).value) := by
  simp [Model.varValue, mapVarsIdx_get?, Option.bind_map]

theorem varTimeIdx_mapVarsIdx (m : Model) (f : Nat → VarData → VarData) (i : Nat) :
    (m.mapVarsIdx f).varTimeIdx i = ((m.vars[i]?).map (fun v => (f i v).timeIdx)).getD none := by
  simp only [Model.varTimeIdx, mapVarsIdx_get?, Option.map_map]
  rfl

/-! ### Variable-level operations -/

theorem fixVarIdx_cons (m : Model) (d : Nat) : (m.fixVarIdx d).cons = m.cons := rfl

theorem unfixVarIdx_cons (m : Model) (d : Nat) : (m.unfixVarIdx d).cons = m.cons := rfl

theorem fixVarIdx_varFixed_ne (m : Model) (d j : Nat) (h : j ≠ d) :
    (m.fixVarIdx d).varFixed j = m.varFixed j := by
  rw [Model.fixVarIdx, varFixed_mapVarsIdx, Model.varFixed]
  cases m.vars[j]? with
  | none => rfl
  | some v => simp [h]

theorem fixVarIdx_varFixed_mono (m : Model) (d j : Nat) (h : m.varFixed j = true) :
    (m.fixVarIdx d).varFixed j = true := by
  rw [Model.fixVarIdx, varFixed_mapVarsIdx]
  rw [Model.varFixed] at h
  cases hv : m.vars[j]? with
  | none => rw [hv] at h; simp at h
  | some v =>
      rw [hv] at h
      simp only [Option.map_some', Option.getD_some] at h
      by_cases hjd : j = d <;> simp [hjd, h]

theorem unfixVarIdx_varFixed_ne (m : Model) (d j : Nat) (h : j ≠ d) :
    (m.unfixVarIdx d).varFixed j = m.varFixed j := by
  rw [Model.unfixVarIdx, varFixed_mapVarsIdx, Model.varFixed]
  cases m.vars[j]? with
  | none => rfl
  | some v => simp [h]

theorem unfixVarIdx_varFixed_self (m : Model) (d : Nat) :
    (m.unfixVarIdx d).varFixed d = false := by
  rw [Model.unfixVarIdx, varFixed_mapVarsIdx]
  cases m.vars[d]? with
  | none => rfl
  | some v => simp

theorem fixVarIdx_varValue (m : Model) (d j : Nat) :
    (m.fixVarIdx d).varValue j = m.varValue j := by
  rw [Model.fixVarIdx, varValue_mapVarsIdx, Model.varValue]
  cases m.vars[j]? with
  | none => rfl
  | some v => by_cases hjd : j = d <;> simp [hjd]

theorem unfixVarIdx_varValue (m : Model) (d j : Nat) :
    (m.unfixVarIdx d).varValue j = m.varValue j := by
  rw [Model.unfixVarIdx, varValue_mapVarsIdx, Model.varValue]
  cases m.vars[j]? with
  | none => rfl
  | some v => by_cases hjd : j = d <;> simp [hjd]

theorem fixVarIdx_varTimeIdx (m : Model) (d j : Nat) :
    (m.fixVarIdx d).varTimeIdx j = m.varTimeIdx j := by
  rw [Model.fixVarIdx, varTimeIdx_mapVarsIdx, Model.varTimeIdx]
  cases m.vars[j]? with
  | none => rfl
  | some v => by_cases hjd : j = d <;> simp [hjd]

theorem unfixVarIdx_varTimeIdx (m : Model) (d j : Nat) :
    (m.unfixVarIdx d).varTimeIdx j = m.varTimeIdx j := by
  rw [Model.unfixVarIdx, varTimeIdx_mapVarsIdx, Model.varTimeIdx]
  cases m.vars[j]? with
  | none => rfl
  | some v => by_cases hjd : j = d <;> simp [hjd]

theorem solveEffect_cons (vals : Nat → Option Int) (m : Model) :
    (solveEffect vals m).cons = m.cons := rfl

theorem solveEffect_varFixed (vals : Nat → Option Int) (m : Model) (j : Nat) :
    (solveEffect vals m).varFixed j = m.varFixed j := by
  rw [solveEffect, varFixed_mapVarsIdx, Model.varFixed]
  cases m.vars[j]? with
  | none => rfl
  | some v => by_cases hf : v.fixed <;> simp [hf]

theorem solveEffect_varTimeIdx (vals : Nat → Option Int) (m : Model) (j : Nat) :
    (solveEffect vals m).varTimeIdx j = m.varTimeIdx j := by
  rw [solveEffect, varTimeIdx_mapVarsIdx, Model.varTimeIdx]
  cases m.vars[j]? with
  | none => rfl
  | some v => by_cases hf : v.fixed <;> simp [hf]

theorem copy_values_cons (m : Model) (tT tS : Nat) :
    (copy_values_at_time m tT tS).cons = m.cons := rfl

theorem copy_values_varFixed (m : Model) (tT tS j : Nat) :
    (copy_values_at_time m tT tS).varFixed j = m.varFixed j := by
  rw [copy_values_at_time, varFixed_mapVarsIdx, Model.varFixed]
  cases m.vars[j]? with
  | none => rfl
  | some v => simp only [Option.map_some', Option.getD_some]; split <;> rfl

theorem copy_values_varTimeIdx (m : Model) (tT tS j : Nat) :
    (copy_values_at_time m tT tS).varTimeIdx j = m.varTimeIdx j := by
  rw [copy_values_at_time, varTimeIdx_mapVarsIdx, Model.varTimeIdx]
  cases m.vars[j]? with
  | none => rfl
  | some v => simp only [Option.map_some', Option.getD_some]; split <;> rfl

/-! ### The fixing, copying and unfixing loops -/

theorem fixDerivLoop_cons (m : Model) (s : Nat → Bool) (l : List Nat) :
    (fixDerivLoop m s l).1.cons = m.cons := by
  induction l generalizing m s with
  | nil => rfl
  | cons d rest ih =>
      show (fixDerivLoop (if (m.varValue d).isSome then m.fixVarIdx d else m) _ rest).1.cons = m.cons
      rw [ih]
      split <;> rfl

theorem fixDvarLoop_cons (m : Model) (s : Nat → Bool) (g : Bool) (l : List Nat) :
    (fixDvarLoop m s g l).1.cons = m.cons := by
  induction l generalizing m s with
  | nil => rfl
  | cons v rest ih =>
      show (fixDvarLoop (if g then m.fixVarIdx v else m) _ g rest).1.cons = m.cons
      rw [ih]
      split <;> rfl

theorem fixPairsStep_cons (m : Model) (derivL dvarL : List Nat) :
    (fixPairsStep m derivL dvarL).1.cons = m.cons := by
  rw [fixPairsStep]
  rw [fixDvarLoop_cons, fixDerivLoop_cons]

theorem fixDerivLoop_varValue (m : Model) (s : Nat → Bool) (l : List Nat) (j : Nat) :
    (fixDerivLoop m s l).1.varValue j = m.varValue j := by
  induction l generalizing m s with
  | nil => rfl
  | cons d rest ih =>
      show (fixDerivLoop (if (m.varValue d).isSome then m.fixVarIdx d else m) _ rest).1.varValue j
        = m.varValue j
      rw [ih]
      split
      · exact fixVarIdx_varValue m d j
      · rfl

theorem fixDvarLoop_varValue (m : Model) (s : Nat → Bool) (g : Bool) (l : List Nat) (j : Nat) :
    (fixDvarLoop m s g l).1.varValue j = m.varValue j := by
  induction l generalizing m s with
  | nil => rfl
  | cons v rest ih =>
      show (fixDvarLoop (if g then m.fixVarIdx v else m) _ g rest).1.varValue j = m.varValue j
      rw [ih]
      split
      · exact fixVarIdx_varValue m v j
      · rfl

theorem fixDerivLoop_varTimeIdx (m : Model) (s : Nat → Bool) (l : List Nat) (j : Nat) :
    (fixDerivLoop m s l).1.varTimeIdx j = m.varTimeIdx j := by
  induction l generalizing m s with
  | nil => rfl
  | cons d rest ih =>
      show (fixDerivLoop (if (m.varValue d).isSome then m.fixVarIdx d else m) _ rest).1.varTimeIdx j
        = m.varTimeIdx j
      rw [ih]
      split
      · exact fixVarIdx_varTimeIdx m d j
      · rfl

theorem fixDvarLoop_varTimeIdx (m : Model) (s : Nat → Bool) (g : Bool) (l : List Nat) (j : Nat) :
    (fixDvarLoop m s g l).1.varTimeIdx j = m.varTimeIdx j := by
  induction l generalizing m s with
  | nil => rfl
  | cons v rest ih =>
      show (fixDvarLoop (if g then m.fixVarIdx v else m) _ g rest).1.varTimeIdx j = m.varTimeIdx j
      rw [ih]
      split
      · exact fixVarIdx_varTimeIdx m v j
      · rfl

theorem fixDerivLoop_frame (m : Model) (s : Nat → Bool) (l : List Nat) (j : Nat) (h : j ∉ l) :
    (fixDerivLoop m s l).1.varFixed j = m.varFixed j ∧ (fixDerivLoop m s l).2 j = s j := by
  induction l generalizing m s with
  | nil => exact ⟨rfl, rfl⟩
  | cons d rest ih =>
      have hjd : j ≠ d := fun hc => h (hc ▸ List.mem_cons_self d rest)
      have hjr : j ∉ rest := fun hc => h (List.mem_cons_of_mem d hc)
      obtain ⟨h1, h2⟩ := ih (if (m.varValue d).isSome then m.fixVarIdx d else m)
        (fun x => if x = d then m.varFixed d else s x) hjr
      constructor
      · show (fixDerivLoop (if (m.varValue d).isSome then m.fixVarIdx d else m)
          (fun x => if x = d then m.varFixed d else s x) rest).1.varFixed j = m.varFixed j
        rw [h1]
        split
        · exact fixVarIdx_varFixed_ne m d j hjd
        · rfl
      · show (fixDerivLoop (if (m.varValue d).isSome then m.fixVarIdx d else m)
          (fun x => if x = d then m.varFixed d else s x) rest).2 j = s j
        rw [h2]
        simp [hjd]

theorem fixDvarLoop_frame (m : Model) (s : Nat → Bool) (g : Bool) (l : List Nat) (j : Nat)
    (h : j ∉ l) :
    (fixDvarLoop m s g l).1.varFixed j = m.varFixed j ∧ (fixDvarLoop m s g l).2 j = s j := by
  induction l generalizing m s with
  | nil => exact ⟨rfl, rfl⟩
  | cons v rest ih =>
      have hjd : j ≠ v := fun hc => h (hc ▸ List.mem_cons_self v rest)
      have hjr : j ∉ rest := fun hc => h (List.mem_cons_of_mem v hc)
      obtain ⟨h1, h2⟩ := ih (if g then m.fixVarIdx v else m)
        (fun x => if x = v then m.varFixed v else s x) hjr
      constructor
      · show (fixDvarLoop (if g then m.fixVarIdx v else m)
          (fun x => if x = v then m.varFixed v else s x) g rest).1.varFixed j = m.varFixed j
        rw [h1]
        split
        · exact fixVarIdx_varFixed_ne m v j hjd
        · rfl
      · show (fixDvarLoop (if g then m.fixVarIdx v else m)
          (fun x => if x = v then m.varFixed v else s x) g rest).2 j = s j
        rw [h2]
        simp [hjd]

theorem fixDerivLoop_mono (m : Model) (s : Nat → Bool) (l : List Nat) (j : Nat)
    (h : m.varFixed j = true) : (fixDerivLoop m s l).1.varFixed j = true := by
  induction l generalizing m s with
  | nil => exact h
  | cons d rest ih =>
      show (fixDerivLoop (if (m.varValue d).isSome then m.fixVarIdx d else m) _ rest).1.varFixed j
        = true
      apply ih
      split
      · exact fixVarIdx_varFixed_mono m d j h
      · exact h

theorem fixDvarLoop_mono (m : Model) (s : Nat → Bool) (g : Bool) (l : List Nat) (j : Nat)
    (h : m.varFixed j = true) : (fixDvarLoop m s g l).1.varFixed j = true := by
  induction l generalizing m s with
  | nil => exact h
  | cons v rest ih =>
      show (fixDvarLoop (if g then m.fixVarIdx v else m) _ g rest).1.varFixed j = true
      apply ih
      split
      · exact fixVarIdx_varFixed_mono m v j h
      · exact h

theorem fixDerivLoop_snapInv (m : Model) (s : Nat → Bool) (l : List Nat)
    (h : ∀ x, s x = true → m.varFixed x = true) :
    ∀ x, (fixDerivLoop m s l).2 x = true → (fixDerivLoop m s l).1.varFixed x = true := by
  induction l generalizing m s with
  | nil => exact h
  | cons d rest ih =>
      show ∀ x, (fixDerivLoop (if (m.varValue d).isSome then m.fixVarIdx d else m)
        (fun x => if x = d then m.varFixed d else s x) rest).2 x = true → _
      apply ih
      intro x hx
      by_cases hxd : x = d
      · subst hxd
        simp only [if_pos rfl] at hx
        split
        · exact fixVarIdx_varFixed_mono m x x hx
        · exact hx
      · simp only [if_neg hxd] at hx
        have := h x hx
        split
        · exact fixVarIdx_varFixed_mono m d x this
        · exact this

theorem fixDvarLoop_snapInv (m : Model) (s : Nat → Bool) (g : Bool) (l : List Nat)
    (h : ∀ x, s x = true → m.varFixed x = true) :
    ∀ x, (fixDvarLoop m s g l).2 x = true → (fixDvarLoop m s g l).1.varFixed x = true := by
  induction l generalizing m s with
  | nil => exact h
  | cons v rest ih =>
      show ∀ x, (fixDvarLoop (if g then m.fixVarIdx v else m)
        (fun x => if x = v then m.varFixed v else s x) g rest).2 x = true → _
      apply ih
      intro x hx
      by_cases hxv : x = v
      · subst hxv
        simp only [if_pos rfl] at hx
        split
        · exact fixVarIdx_varFixed_mono m x x hx
        · exact hx
      · simp only [if_neg hxv] at hx
        have := h x hx
        split
        · exact fixVarIdx_varFixed_mono m v x this
        · exact this

theorem fixPairsStep_snapInv (m : Model) (derivL dvarL : List Nat) :
    ∀ x, (fixPairsStep m derivL dvarL).2 x = true →
      (fixPairsStep m derivL dvarL).1.varFixed x = true := by
  rw [fixPairsStep]
  exact fixDvarLoop_snapInv _ _ _ _
    (fixDerivLoop_snapInv m (fun _ => false) derivL (fun x hx => by cases hx))

theorem unfixLoop_cons (m : Model) (s : Nat → Bool) (l : List Nat) :
    (unfixLoop m s l).cons = m.cons := by
  induction l generalizing m with
  | nil => rfl
  | cons d rest ih =>
      show (unfixLoop (if s d then m else m.unfixVarIdx d) s rest).cons = m.cons
      rw [ih]
      split <;> rfl

theorem unfixLoop_varValue (m : Model) (s : Nat → Bool) (l : List Nat) (j : Nat) :
    (unfixLoop m s l).varValue j = m.varValue j := by
  induction l generalizing m with
  | nil => rfl
  | cons d rest ih =>
      show (unfixLoop (if s d then m else m.unfixVarIdx d) s rest).varValue j = m.varValue j
      rw [ih]
      split
      · rfl
      · exact unfixVarIdx_varValue m d j

theorem unfixLoop_varTimeIdx (m : Model) (s : Nat → Bool) (l : List Nat) (j : Nat) :
    (unfixLoop m s l).varTimeIdx j = m.varTimeIdx j := by
  induction l generalizing m with
  | nil => rfl
  | cons d rest ih =>
      show (unfixLoop (if s d then m else m.unfixVarIdx d) s rest).varTimeIdx j = m.varTimeIdx j
      rw [ih]
      split
      · rfl
      · exact unfixVarIdx_varTimeIdx m d j

theorem unfixLoop_varFixed_notmem (m : Model) (s : Nat → Bool) (l : List Nat) (j : Nat)
    (h : j ∉ l) : (unfixLoop m s l).varFixed j = m.varFixed j := by
  induction l generalizing m with
  | nil => rfl
  | cons d rest ih =>
      have hjd : j ≠ d := fun hc => h (hc ▸ List.mem_cons_self d rest)
      have hjr : j ∉ rest := fun hc => h (List.mem_cons_of_mem d hc)
      show (unfixLoop (if s d then m else m.unfixVarIdx d) s rest).varFixed j = m.varFixed j
      rw [ih _ hjr]
      split
      · rfl
      · exact unfixVarIdx_varFixed_ne m d j hjd

theorem unfixLoop_varFixed_true (m : Model) (s : Nat → Bool) (l : List Nat) (j : Nat)
    (h : s j = true) : (unfixLoop m s l).varFixed j = m.varFixed j := by
  induction l generalizing m with
  | nil => rfl
  | cons d rest ih =>
      show (unfixLoop (if s d then m else m.unfixVarIdx d) s rest).varFixed j = m.varFixed j
      rw [ih]
      by_cases hjd : j = d
      · rw [if_pos (hjd ▸ h)]
      · split
        · rfl
        · exact unfixVarIdx_varFixed_ne m d j hjd

theorem unfixLoop_varFixed_false (m : Model) (s : Nat → Bool) (l : List Nat) (j : Nat)
    (hj : j ∈ l) (h : s j = false) : (unfixLoop m s l).varFixed j = false := by
  induction l generalizing m with
  | nil => cases hj
  | cons d rest ih =>
      show (unfixLoop (if s d then m else m.unfixVarIdx d) s rest).varFixed j = false
      by_cases hjr : j ∈ rest
      · exact ih _ hjr
      · have hjd : j = d := by
          rcases List.mem_cons.mp hj with h1 | h1
          · exact h1
          · exact absurd h1 hjr
        subst hjd
        rw [unfixLoop_varFixed_notmem _ _ _ _ hjr, if_neg (by simp [h])]
        exact unfixVarIdx_varFixed_self m j

theorem copyFold_cons (fe : List Nat) (tPrev : Nat) (m : Model) :
    (fe.foldl (fun mm t => copy_values_at_time mm t tPrev) m).cons = m.cons := by
  induction fe generalizing m with
  | nil => rfl
  | cons t rest ih => rw [List.foldl_cons, ih, copy_values_cons]

theorem copyFold_varFixed (fe : List Nat) (tPrev : Nat) (m : Model) (j : Nat) :
    (fe.foldl (fun mm t => copy_values_at_time mm t tPrev) m).varFixed j = m.varFixed j := by
  induction fe generalizing m with
  | nil => rfl
  | cons t rest ih => rw [List.foldl_cons, ih, copy_values_varFixed]

theorem copyFold_varTimeIdx (fe : List Nat) (tPrev : Nat) (m : Model) (j : Nat) :
    (fe.foldl (fun mm t => copy_values_at_time mm t tPrev) m).varTimeIdx j = m.varTimeIdx j := by
  induction fe generalizing m with
  | nil => rfl
  | cons t rest ih => rw [List.foldl_cons, ih, copy_values_varTimeIdx]

/-! ### One finite-element iteration -/

theorem elemReact_vars (snap : Nat → Bool) (fe : List Nat) (m : Model) :
    (elemReact snap fe m).vars = m.vars := rfl

theorem elemDeact_vars (fe : List Nat) (m : Model) :
    (elemDeact fe m).vars = m.vars := rfl

theorem elemDeact_varFixed (fe : List Nat) (m : Model) (j : Nat) :
    (elemDeact fe m).varFixed j = m.varFixed j := rfl

theorem fixPairsStep_frame (m : Model) (a b : List Nat) (j : Nat)
    (ha : j ∉ a) (hb : j ∉ b) :
    (fixPairsStep m a b).1.varFixed j = m.varFixed j ∧ (fixPairsStep m a b).2 j = false := by
  rw [fixPairsStep]
  obtain ⟨h1, h2⟩ := fixDerivLoop_frame m (fun _ => false) a j ha
  obtain ⟨h3, h4⟩ := fixDvarLoop_frame (fixDerivLoop m (fun _ => false) a).1
    (fixDerivLoop m (fun _ => false) a).2 _ b j hb
  exact ⟨h3.trans h1, h4.trans h2⟩

theorem fixPairsStep_varTimeIdx (m : Model) (a b : List Nat) (j : Nat) :
    (fixPairsStep m a b).1.varTimeIdx j = m.varTimeIdx j := by
  rw [fixPairsStep]
  rw [fixDvarLoop_varTimeIdx, fixDerivLoop_varTimeIdx]

theorem elemPrep_fst_cons (ncp : Nat) (pairs : Nat → List (Nat × Nat))
    (snap : Nat → Bool) (m : Model) (i : Nat) :
    (elemPrep ncp pairs snap m i).1.cons = (elemReact snap (feIdxs i ncp) m).cons := by
  show ((feIdxs i ncp).foldl (fun mm t => copy_values_at_time mm t (tPrevIdx i ncp))
    (fixPairsStep (elemReact snap (feIdxs i ncp) m)
      ((pairs (tPrevIdx i ncp)).map Prod.fst) ((pairs (tPrevIdx i ncp)).map Prod.snd)).1).cons = _
  rw [copyFold_cons, fixPairsStep_cons]

theorem elemPrep_snd (ncp : Nat) (pairs : Nat → List (Nat × Nat))
    (snap : Nat → Bool) (m : Model) (i : Nat) :
    (elemPrep ncp pairs snap m i).2 =
      (fixPairsStep (elemReact snap (feIdxs i ncp) m)
        ((pairs (tPrevIdx i ncp)).map Prod.fst) ((pairs (tPrevIdx i ncp)).map Prod.snd)).2 := rfl

theorem elemPrep_varFixed_frame (ncp : Nat) (pairs : Nat → List (Nat × Nat))
    (snap : Nat → Bool) (m : Model) (i j : Nat)
    (ha : j ∉ (pairs (tPrevIdx i ncp)).map Prod.fst)
    (hb : j ∉ (pairs (tPrevIdx i ncp)).map Prod.snd) :
    (elemPrep ncp pairs snap m i).1.varFixed j = m.varFixed j ∧
      (elemPrep ncp pairs snap m i).2 j = false := by
  have hfp := fixPairsStep_frame (elemReact snap (feIdxs i ncp) m)
    ((pairs (tPrevIdx i ncp)).map Prod.fst) ((pairs (tPrevIdx i ncp)).map Prod.snd) j ha hb
  constructor
  · show ((feIdxs i ncp).foldl (fun mm t => copy_values_at_time mm t (tPrevIdx i ncp))
      (fixPairsStep (elemReact snap (feIdxs i ncp) m)
        ((pairs (tPrevIdx i ncp)).map Prod.fst)
        ((pairs (tPrevIdx i ncp)).map Prod.snd)).1).varFixed j = m.varFixed j
    rw [copyFold_varFixed]
    exact hfp.1
  · exact (elemPrep_snd ncp pairs snap m i) ▸ hfp.2

theorem elemPrep_snapInv (ncp : Nat) (pairs : Nat → List (Nat × Nat))
    (snap : Nat → Bool) (m : Model) (i : Nat) :
    ∀ x, (elemPrep ncp pairs snap m i).2 x = true →
      (elemPrep ncp pairs snap m i).1.varFixed x = true := by
  intro x hx
  show ((feIdxs i ncp).foldl (fun mm t => copy_values_at_time mm t (tPrevIdx i ncp))
    (fixPairsStep (elemReact snap (feIdxs i ncp) m)
      ((pairs (tPrevIdx i ncp)).map Prod.fst)
      ((pairs (tPrevIdx i ncp)).map Prod.snd)).1).varFixed x = true
  rw [copyFold_varFixed]
  exact fixPairsStep_snapInv _ _ _ x hx

theorem elemPrep_varTimeIdx (ncp : Nat) (pairs : Nat → List (Nat × Nat))
    (snap : Nat → Bool) (m : Model) (i j : Nat) :
    (elemPrep ncp pairs snap m i).1.varTimeIdx j = m.varTimeIdx j := by
  show ((feIdxs i ncp).foldl (fun mm t => copy_values_at_time mm t (tPrevIdx i ncp))
    (fixPairsStep (elemReact snap (feIdxs i ncp) m)
      ((pairs (tPrevIdx i ncp)).map Prod.fst)
      ((pairs (tPrevIdx i ncp)).map Prod.snd)).1).varTimeIdx j = m.varTimeIdx j
  rw [copyFold_varTimeIdx, fixPairsStep_varTimeIdx]
  rfl

theorem elemFinish_cons (ncp : Nat) (pairs : Nat → List (Nat × Nat)) (i : Nat)
    (wf : Nat → Bool) (m4 : Model) (j : Nat) :
    (elemFinish ncp pairs i wf m4).cons[j]? = (m4.cons[j]?).map
      (fun c => if optMem c.timeIdx (feIdxs i ncp) then { c with active := false } else c) := by
  show (unfixLoop (unfixLoop (elemDeact (feIdxs i ncp) m4) wf
    ((pairs (tPrevIdx i ncp)).map Prod.fst)) wf
    ((pairs (tPrevIdx i ncp)).map Prod.snd)).cons[j]? = _
  rw [unfixLoop_cons, unfixLoop_cons]
  exact mapConsIdx_get? m4 _ j

theorem elemFinish_varTimeIdx (ncp : Nat) (pairs : Nat → List (Nat × Nat)) (i : Nat)
    (wf : Nat → Bool) (m4 : Model) (j : Nat) :
    (elemFinish ncp pairs i wf m4).varTimeIdx j = m4.varTimeIdx j := by
  show (unfixLoop (unfixLoop (elemDeact (feIdxs i ncp) m4) wf
    ((pairs (tPrevIdx i ncp)).map Prod.fst)) wf
    ((pairs (tPrevIdx i ncp)).map Prod.snd)).varTimeIdx j = _
  rw [unfixLoop_varTimeIdx, unfixLoop_varTimeIdx]
  rfl

theorem elemFinish_varFixed_notmem (ncp : Nat) (pairs : Nat → List (Nat × Nat)) (i : Nat)
    (wf : Nat → Bool) (m4 : Model) (j : Nat)
    (ha : j ∉ (pairs (tPrevIdx i ncp)).map Prod.fst)
    (hb : j ∉ (pairs (tPrevIdx i ncp)).map Prod.snd) :
    (elemFinish ncp pairs i wf m4).varFixed j = m4.varFixed j := by
  show (unfixLoop (unfixLoop (elemDeact (feIdxs i ncp) m4) wf
    ((pairs (tPrevIdx i ncp)).map Prod.fst)) wf
    ((pairs (tPrevIdx i ncp)).map Prod.snd)).varFixed j = _
  rw [unfixLoop_varFixed_notmem _ _ _ _ hb, unfixLoop_varFixed_notmem _ _ _ _ ha]
  rfl

theorem elemFinish_varFixed_mem (ncp : Nat) (pairs : Nat → List (Nat × Nat)) (i : Nat)
    (wf : Nat → Bool) (m4 : Model) (j : Nat)
    (hInv : ∀ x, wf x = true → m4.varFixed x = true)
    (hj : j ∈ (pairs (tPrevIdx i ncp)).map Prod.fst ∨ j ∈ (pairs (tPrevIdx i ncp)).map Prod.snd) :
    (elemFinish ncp pairs i wf m4).varFixed j = wf j := by
  show (unfixLoop (unfixLoop (elemDeact (feIdxs i ncp) m4) wf
    ((pairs (tPrevIdx i ncp)).map Prod.fst)) wf
    ((pairs (tPrevIdx i ncp)).map Prod.snd)).varFixed j = wf j
  cases hwf : wf j with
  | true =>
      rw [unfixLoop_varFixed_true _ _ _ _ hwf, unfixLoop_varFixed_true _ _ _ _ hwf,
        elemDeact_varFixed]
      exact hInv j hwf
  | false =>
      by_cases hbm : j ∈ (pairs (tPrevIdx i ncp)).map Prod.snd
      · exact unfixLoop_varFixed_false _ _ _ _ hbm hwf
      · rcases hj with hj | hj
        · rw [unfixLoop_varFixed_notmem _ _ _ _ hbm]
          exact unfixLoop_varFixed_false _ _ _ _ hj hwf
        · exact absurd hj hbm

theorem elementStep_eq_dofFail (ncp : Nat) (ignoreDof : Bool)
    (pairs : Nat → List (Nat × Nat)) (dof : Model → Int)
    (solveOpt : Nat → Bool) (solveVals : Nat → Nat → Option Int)
    (snap : Nat → Bool) (m : Model) (i : Nat)
    (hg : (!ignoreDof && (dof (elemPrep ncp pairs snap m i).1 != 0)) = true) :
    elementStep ncp ignoreDof pairs dof solveOpt solveVals snap m i =
      ⟨some .nonzeroDOF, (elemPrep ncp pairs snap m i).1, (elemPrep ncp pairs snap m i).2, []⟩ := by
  simp only [elementStep]
  rw [if_pos hg]

theorem elementStep_eq_solveFail (ncp : Nat) (ignoreDof : Bool)
    (pairs : Nat → List (Nat × Nat)) (dof : Model → Int)
    (solveOpt : Nat → Bool) (solveVals : Nat → Nat → Option Int)
    (snap : Nat → Bool) (m : Model) (i : Nat)
    (hg : (!ignoreDof && (dof (elemPrep ncp pairs snap m i).1 != 0)) = false)
    (hs : solveOpt i = false) :
    elementStep ncp ignoreDof pairs dof solveOpt solveVals snap m i =
      ⟨some (.elementSolveFailed i),
        solveEffect (solveVals i) (elemPrep ncp pairs snap m i).1,
        (elemPrep ncp pairs snap m i).2, [i]⟩ := by
  simp only [elementStep]
  rw [if_neg (by simp [hg]), if_pos (by simp [hs])]

theorem elementStep_eq_succ (ncp : Nat) (ignoreDof : Bool)
    (pairs : Nat → List (Nat × Nat)) (dof : Model → Int)
    (solveOpt : Nat → Bool) (solveVals : Nat → Nat → Option Int)
    (snap : Nat → Bool) (m : Model) (i : Nat)
    (hg : (!ignoreDof && (dof (elemPrep ncp pairs snap m i).1 != 0)) = false)
    (hs : solveOpt i = true) :
    elementStep ncp ignoreDof pairs dof solveOpt solveVals snap m i =
      ⟨none,
        elemFinish ncp pairs i (elemPrep ncp pairs snap m i).2
          (solveEffect (solveVals i) (elemPrep ncp pairs snap m i).1),
        (elemPrep ncp pairs snap m i).2, [i]⟩ := by
  simp only [elementStep]
  rw [if_neg (by simp [hg]), if_neg (by simp [hs])]

/-! ### Membership helpers -/

theorem optMem_nil (o : Option Nat) : optMem o [] = false := by cases o <;> rfl

theorem optMem_append (o : Option Nat) (l1 l2 : List Nat) :
    optMem o (l1 ++ l2) = (optMem o l1 || optMem o l2) := by
  cases o with
  | none => rfl
  | some t => simp [optMem, List.contains_eq_any_beq, List.any_append]

theorem optMem_true_iff (o : Option Nat) (l : List Nat) :
    optMem o l = true ↔ ∃ t, o = some t ∧ t ∈ l := by
  cases o with
  | none => simp [optMem]
  | some t => simp [optMem, List.contains_eq_any_beq]

theorem elemReact_get? (snap : Nat → Bool) (fe : List Nat) (m : Model) (j : Nat) :
    (elemReact snap fe m).cons[j]? = (m.cons[j]?).map
      (fun c => if optMem c.timeIdx fe && snap j then { c with active := true } else c) :=
  mapConsIdx_get? m _ j

/-! ### The per-element loop -/

theorem runElements_succ_cons (ncp : Nat) (ignoreDof : Bool)
    (pairs : Nat → List (Nat × Nat)) (dof : Model → Int)
    (solveOpt : Nat → Bool) (solveVals : Nat → Nat → Option Int) (snap : Nat → Bool)
    (elems : List Nat) (m : Model) (j : Nat)
    (h : (runElements ncp ignoreDof pairs dof solveOpt solveVals snap m elems).err = none) :
    (runElements ncp ignoreDof pairs dof solveOpt solveVals snap m elems).final.cons[j]? =
      (m.cons[j]?).map (fun c =>
        if optMem c.timeIdx (elems.flatMap (fun e => feIdxs e ncp)) then
          { c with active := false } else c) := by
  induction elems generalizing m with
  | nil =>
      cases hc : m.cons[j]? with
      | none => simp [runElements, hc]
      | some c => simp [runElements, hc, optMem_nil]
  | cons i rest ih =>
      cases hg : (!ignoreDof && (dof (elemPrep ncp pairs snap m i).1 != 0)) with
      | true =>
          simp only [runElements] at h
          rw [elementStep_eq_dofFail _ _ _ _ _ _ _ _ _ hg] at h
          simp at h
      | false =>
          cases hs : solveOpt i with
          | false =>
              simp only [runElements] at h
              rw [elementStep_eq_solveFail _ _ _ _ _ _ _ _ _ hg hs] at h
              simp at h
          | true =>
              simp only [runElements] at h ⊢
              rw [elementStep_eq_succ _ _ _ _ _ _ _ _ _ hg hs] at h ⊢
              dsimp only at h ⊢
              rw [ih _ h, elemFinish_cons, solveEffect_cons, elemPrep_fst_cons, elemReact_get?]
              rw [Option.map_map, Option.map_map]
              cases hc : m.cons[j]? with
              | none => rfl
              | some c =>
                  simp only [Option.map_some', Function.comp]
                  cases hA : optMem c.timeIdx (feIdxs i ncp) <;>
                    cases hsn : snap j <;>
                      simp [hA, hsn, optMem_append, List.flatMap_cons]

theorem runElements_varFixed_notpair (ncp : Nat) (ignoreDof : Bool)
    (pairs : Nat → List (Nat × Nat)) (dof : Model → Int)
    (solveOpt : Nat → Bool) (solveVals : Nat → Nat → Option Int) (snap : Nat → Bool)
    (elems : List Nat) (m : Model) (j : Nat)
    (hj : ∀ e, j ∉ (pairs (tPrevIdx e ncp)).map Prod.fst ∧
               j ∉ (pairs (tPrevIdx e ncp)).map Prod.snd) :
    (runElements ncp ignoreDof pairs dof solveOpt solveVals snap m elems).final.varFixed j =
      m.varFixed j := by
  induction elems generalizing m with
  | nil => rfl
  | cons i rest ih =>
      simp only [runElements]
      cases hg : (!ignoreDof && (dof (elemPrep ncp pairs snap m i).1 != 0)) with
      | true =>
          rw [elementStep_eq_dofFail _ _ _ _ _ _ _ _ _ hg]
          dsimp only
          exact (elemPrep_varFixed_frame ncp pairs snap m i j (hj i).1 (hj i).2).1
      | false =>
          cases hs : solveOpt i with
          | false =>
              rw [elementStep_eq_solveFail _ _ _ _ _ _ _ _ _ hg hs]
              dsimp only
              rw [solveEffect_varFixed]
              exact (elemPrep_varFixed_frame ncp pairs snap m i j (hj i).1 (hj i).2).1
          | true =>
              rw [elementStep_eq_succ _ _ _ _ _ _ _ _ _ hg hs]
              dsimp only
              rw [ih, elemFinish_varFixed_notmem _ _ _ _ _ _ (hj i).1 (hj i).2,
                solveEffect_varFixed]
              exact (elemPrep_varFixed_frame ncp pairs snap m i j (hj i).1 (hj i).2).1

theorem runElements_err_cases (ncp : Nat) (ignoreDof : Bool)
    (pairs : Nat → List (Nat × Nat)) (dof : Model → Int)
    (solveOpt : Nat → Bool) (solveVals : Nat → Nat → Option Int) (snap : Nat → Bool)
    (elems : List Nat) (m : Model) :
    (runElements ncp ignoreDof pairs dof solveOpt solveVals snap m elems).err = none ∨
    (runElements ncp ignoreDof pairs dof solveOpt solveVals snap m elems).err =
      some .nonzeroDOF ∨
    ∃ k, (runElements ncp ignoreDof pairs dof solveOpt solveVals snap m elems).err =
      some (.elementSolveFailed k) := by
  induction elems generalizing m with
  | nil => left; rfl
  | cons i rest ih =>
      simp only [runElements]
      cases hg : (!ignoreDof && (dof (elemPrep ncp pairs snap m i).1 != 0)) with
      | true =>
          rw [elementStep_eq_dofFail _ _ _ _ _ _ _ _ _ hg]
          right; left; rfl
      | false =>
          cases hs : solveOpt i with
          | false =>
              rw [elementStep_eq_solveFail _ _ _ _ _ _ _ _ _ hg hs]
              right; right; exact ⟨i, rfl⟩
          | true =>
              rw [elementStep_eq_succ _ _ _ _ _ _ _ _ _ hg hs]
              dsimp only
              exact ih _

theorem runElements_nodof (ncp : Nat)
    (pairs : Nat → List (Nat × Nat)) (dof : Model → Int)
    (solveOpt : Nat → Bool) (solveVals : Nat → Nat → Option Int) (snap : Nat → Bool)
    (elems : List Nat) (m : Model) :
    (runElements ncp true pairs dof solveOpt solveVals snap m elems).err ≠
      some .nonzeroDOF := by
  induction elems generalizing m with
  | nil => intro hc; exact Option.noConfusion hc
  | cons i rest ih =>
      simp only [runElements]
      cases hs : solveOpt i with
      | false =>
          rw [elementStep_eq_solveFail _ _ _ _ _ _ _ _ _ (by rfl) hs]
          intro hc
          simp at hc
      | true =>
          rw [elementStep_eq_succ _ _ _ _ _ _ _ _ _ (by rfl) hs]
          dsimp only
          exact ih _

theorem runElements_fail_calls (ncp : Nat) (ignoreDof : Bool)
    (pairs : Nat → List (Nat × Nat)) (dof : Model → Int)
    (solveOpt : Nat → Bool) (solveVals : Nat → Nat → Option Int) (snap : Nat → Bool)
    (elems : List Nat) (m : Model) (k : Nat)
    (h : (runElements ncp ignoreDof pairs dof solveOpt solveVals snap m elems).err =
      some (.elementSolveFailed k)) :
    ∃ pre post, elems = pre ++ k :: post ∧
      (runElements ncp ignoreDof pairs dof solveOpt solveVals snap m elems).calls =
        pre ++ [k] := by
  induction elems generalizing m with
  | nil => exact Option.noConfusion h
  | cons i rest ih =>
      simp only [runElements] at h ⊢
      cases hg : (!ignoreDof && (dof (elemPrep ncp pairs snap m i).1 != 0)) with
      | true =>
          rw [elementStep_eq_dofFail _ _ _ _ _ _ _ _ _ hg] at h
          simp at h
      | false =>
          cases hs : solveOpt i with
          | false =>
              rw [elementStep_eq_solveFail _ _ _ _ _ _ _ _ _ hg hs] at h ⊢
              dsimp only at h ⊢
              have hik : i = k := by
                have h2 := Option.some.inj h
                cases h2
                rfl
              refine ⟨[], rest, ?_, ?_⟩
              · rw [hik]; rfl
              · rw [hik]; rfl
          | true =>
              rw [elementStep_eq_succ _ _ _ _ _ _ _ _ _ hg hs] at h ⊢
              dsimp only at h ⊢
              obtain ⟨pre, post, he, hc⟩ := ih _ h
              refine ⟨i :: pre, post, ?_, ?_⟩
              · rw [he]; rfl
              · rw [hc]; rfl

/-! ### Element layout arithmetic -/

theorem pyRange_mem (a b k : Nat) : k ∈ pyRange a b ↔ a ≤ k ∧ k < b := by
  rw [pyRange, List.mem_range'_1]
  omega

theorem feIdxs_mem (i ncp k : Nat) :
    k ∈ feIdxs i ncp ↔ (i-1)*ncp + 2 ≤ k ∧ k ≤ i*ncp + 1 := by
  rw [feIdxs, pyRange_mem]
  cases i with
  | zero => omega
  | succ n =>
      have h2 : (n+1)*ncp = n*ncp + ncp := Nat.succ_mul n ncp
      have h1 : n+1-1 = n := rfl
      rw [h1, h2]
      omega

theorem fes_cover (nfe ncp t : Nat) :
    t ∈ (pyRange 1 (nfe+1)).flatMap (fun e => feIdxs e ncp) ↔
      2 ≤ t ∧ t ≤ nfe * ncp + 1 := by
  induction nfe with
  | zero =>
      constructor
      · intro h
        rw [List.mem_flatMap] at h
        obtain ⟨e, he, ht⟩ := h
        rw [pyRange_mem] at he
        omega
      · intro h
        exact absurd h (by omega)
  | succ n ih =>
      have hsplit : pyRange 1 (n+1+1) = pyRange 1 (n+1) ++ [n+1] := by
        rw [pyRange, pyRange]
        have h1 : n+1+1-1 = n+1 := rfl
        have h2 : n+1-1 = n := rfl
        rw [h1, h2, List.range'_concat]
        norm_num
        omega
      rw [hsplit, List.flatMap_append, List.mem_append, ih]
      have hmul : (n+1)*ncp = n*ncp + ncp := Nat.succ_mul n ncp
      have h1 : n+1-1 = n := rfl
      constructor
      · rintro (h | h)
        · omega
        · simp only [List.flatMap_cons, List.flatMap_nil, List.append_nil] at h
          rw [feIdxs_mem, h1] at h
          omega
      · intro h
        by_cases hle : t ≤ n * ncp + 1
        · left; omega
        · right
          simp only [List.flatMap_cons, List.flatMap_nil, List.append_nil]
          rw [feIdxs_mem, h1]
          omega

theorem range'_split (s n k : Nat) (pre post : List Nat)
    (h : List.range' s n = pre ++ k :: post) : pre = List.range' s (k - s) := by
  induction n generalizing s pre with
  | zero =>
      exfalso
      cases pre <;> simp at h
  | succ n ih =>
      rw [List.range'_succ] at h
      cases pre with
      | nil =>
          simp at h
          obtain ⟨hks, -⟩ := h
          rw [← hks]
          simp
      | cons a pre2 =>
          simp at h
          obtain ⟨has, h2⟩ := h
          have hk : k ∈ List.range' (s+1) n := by
            rw [h2]
            simp
          rw [List.mem_range'_1] at hk
          have hks : s + 1 ≤ k := hk.1
          have := ih (s+1) pre2 h2
          have hsub : k - s = (k - (s+1)) + 1 := by omega
          rw [hsub, List.range'_succ, ← this, has]

/-! ### The main run: canonical equations -/

theorem runMain_eq_entryFail (m : Model) (nfe ncp : Nat) (ignoreDof : Bool)
    (pairs : Nat → List (Nat × Nat)) (dof : Model → Int)
    (solveOpt : Nat → Bool) (solveVals : Nat → Nat → Option Int)
    (hg : (!ignoreDof && (dof m != 0)) = true) :
    runMain m nfe ncp ignoreDof pairs dof solveOpt solveVals =
      ⟨some .nonzeroDOF, m, []⟩ := by
  rw [runMain, if_pos hg]

theorem runMain_eq_icFail (m : Model) (nfe ncp : Nat) (ignoreDof : Bool)
    (pairs : Nat → List (Nat × Nat)) (dof : Model → Int)
    (solveOpt : Nat → Bool) (solveVals : Nat → Nat → Option Int)
    (hg : (!ignoreDof && (dof m != 0)) = false) (h0 : solveOpt 0 = false) :
    runMain m nfe ncp ignoreDof pairs dof solveOpt solveVals =
      ⟨some .icSolveFailed, icSolvedModel m nfe ncp solveVals, [0]⟩ := by
  rw [runMain, if_neg (by simp [hg]), if_pos (by simp [h0])]

theorem runMain_eq_loopFail (m : Model) (nfe ncp : Nat) (ignoreDof : Bool)
    (pairs : Nat → List (Nat × Nat)) (dof : Model → Int)
    (solveOpt : Nat → Bool) (solveVals : Nat → Nat → Option Int) (e : InitError)
    (hg : (!ignoreDof && (dof m != 0)) = false) (h0 : solveOpt 0 = true)
    (hr : (runElements ncp ignoreDof pairs dof solveOpt solveVals (get_activity_dict m)
      (loopEntry m nfe ncp solveVals) (pyRange 1 (nfe+1))).err = some e) :
    runMain m nfe ncp ignoreDof pairs dof solveOpt solveVals =
      ⟨some e,
        (runElements ncp ignoreDof pairs dof solveOpt solveVals (get_activity_dict m)
          (loopEntry m nfe ncp solveVals) (pyRange 1 (nfe+1))).final,
        0 :: (runElements ncp ignoreDof pairs dof solveOpt solveVals (get_activity_dict m)
          (loopEntry m nfe ncp solveVals) (pyRange 1 (nfe+1))).calls⟩ := by
  simp only [runMain]
  rw [if_neg (by simp [hg]), if_neg (by simp [h0]), hr]

theorem runMain_eq_done (m : Model) (nfe ncp : Nat) (ignoreDof : Bool)
    (pairs : Nat → List (Nat × Nat)) (dof : Model → Int)
    (solveOpt : Nat → Bool) (solveVals : Nat → Nat → Option Int)
    (hg : (!ignoreDof && (dof m != 0)) = false) (h0 : solveOpt 0 = true)
    (hr : (runElements ncp ignoreDof pairs dof solveOpt solveVals (get_activity_dict m)
      (loopEntry m nfe ncp solveVals) (pyRange 1 (nfe+1))).err = none) :
    runMain m nfe ncp ignoreDof pairs dof solveOpt solveVals =
      ⟨none,
        finalRestore m nfe ncp solveVals
          (runElements ncp ignoreDof pairs dof solveOpt solveVals (get_activity_dict m)
            (loopEntry m nfe ncp solveVals) (pyRange 1 (nfe+1))).final,
        0 :: (runElements ncp ignoreDof pairs dof solveOpt solveVals (get_activity_dict m)
          (loopEntry m nfe ncp solveVals) (pyRange 1 (nfe+1))).calls⟩ := by
  simp only [runMain]
  rw [if_neg (by simp [hg]), if_neg (by simp [h0]), hr]

/-! ### Evaluating the records and the baseline chain -/

theorem optMem_pyRange (t a b : Nat) :
    optMem (some t) (pyRange a b) = decide (a ≤ t ∧ t < b) := by
  by_cases h : a ≤ t ∧ t < b
  · rw [decide_eq_true h]
    exact (optMem_true_iff _ _).mpr ⟨t, rfl, (pyRange_mem a b t).mpr h⟩
  · rw [decide_eq_false h]
    cases hv : optMem (some t) (pyRange a b) with
    | false => rfl
    | true =>
        exfalso
        obtain ⟨t2, ht2, hm⟩ := (optMem_true_iff _ _).mp hv
        cases ht2
        exact h ((pyRange_mem a b t).mp hm)

theorem optMem_fes (nfe ncp t : Nat) :
    optMem (some t) ((pyRange 1 (nfe+1)).flatMap (fun e => feIdxs e ncp)) =
      decide (2 ≤ t ∧ t ≤ nfe*ncp+1) := by
  by_cases h : 2 ≤ t ∧ t ≤ nfe*ncp+1
  · rw [decide_eq_true h]
    exact (optMem_true_iff _ _).mpr ⟨t, rfl, (fes_cover nfe ncp t).mpr h⟩
  · rw [decide_eq_false h]
    cases hv : optMem (some t) ((pyRange 1 (nfe+1)).flatMap (fun e => feIdxs e ncp)) with
    | false => rfl
    | true =>
        exfalso
        obtain ⟨t2, ht2, hm⟩ := (optMem_true_iff _ _).mp hv
        cases ht2
        exact h ((fes_cover nfe ncp t).mp hm)

theorem optMem_single (t x : Nat) : optMem (some t) [x] = decide (t = x) := by
  simp [optMem, List.contains_eq_any_beq]

theorem icSolvedModel_cons (m : Model) (nfe ncp : Nat) (solveVals : Nat → Nat → Option Int) :
    (icSolvedModel m nfe ncp solveVals).cons =
      (deactivate_model_at m (pyRange 2 (nfe*ncp+2))).cons := rfl

theorem deactivate_model_at_get? (m : Model) (pts : List Nat) (j : Nat) :
    (deactivate_model_at m pts).cons[j]? = (m.cons[j]?).map
      (fun c => if optMem c.timeIdx pts then { c with active := false } else c) :=
  mapConsIdx_get? m _ j

theorem m3of_get? (m : Model) (nfe ncp : Nat) (solveVals : Nat → Nat → Option Int) (j : Nat) :
    (m3of m nfe ncp solveVals).cons[j]? = (m.cons[j]?).map (fun c =>
      (fun c1 => if optMem c1.timeIdx [1] then { c1 with active := false } else c1)
      ((fun c0 => if optMem c0.timeIdx (pyRange 2 (nfe*ncp+2)) then
        { c0 with active := false } else c0) c)) := by
  rw [m3of, deactivate_model_at_get?, icSolvedModel_cons, deactivate_model_at_get?,
    Option.map_map]
  rfl

theorem loopEntry_cons_get? (m : Model) (nfe ncp : Nat) (solveVals : Nat → Nat → Option Int)
    (j : Nat) :
    (loopEntry m nfe ncp solveVals).cons[j]? = (m.cons[j]?).map (fun c =>
      (fun c2 => if c2.timeIdx = none then { c2 with active := false } else c2)
      ((fun c1 => if optMem c1.timeIdx [1] then { c1 with active := false } else c1)
      ((fun c0 => if optMem c0.timeIdx (pyRange 2 (nfe*ncp+2)) then
        { c0 with active := false } else c0) c))) := by
  have h1 : (loopEntry m nfe ncp solveVals).cons = (m4of m nfe ncp solveVals).cons := rfl
  rw [h1, m4of, deactivate_constraints_unindexed_by]
  rw [mapConsIdx_get?, m3of_get?, Option.map_map]
  rfl

theorem conUnSnap_eval (m : Model) (nfe ncp : Nat) (solveVals : Nat → Nat → Option Int)
    (j : Nat) :
    conUnSnap m nfe ncp solveVals j =
      ((m.cons[j]?).map (fun c => c.timeIdx == none && c.active)).getD false := by
  have h1 : conUnSnap m nfe ncp solveVals j =
      (((m3of m nfe ncp solveVals).cons[j]?).map
        (fun c => c.timeIdx == none && c.active)).getD false := rfl
  rw [h1, m3of_get?, Option.map_map]
  cases hc : m.cons[j]? with
  | none => rfl
  | some c =>
      simp only [Option.map_some', Option.getD_some, Function.comp]
      cases hti : c.timeIdx with
      | none => simp [optMem, hti]
      | some t =>
          cases h2 : optMem (some t) (pyRange 2 (nfe*ncp+2)) <;>
            cases h3 : optMem (some t) [1] <;>
              simp [hti, h2, h3]


theorem icSolvedModel_vars_get? (m : Model) (nfe ncp : Nat)
    (solveVals : Nat → Nat → Option Int) (j : Nat) :
    (icSolvedModel m nfe ncp solveVals).vars[j]? = (m.vars[j]?).map
      (fun v => if v.fixed then v else { v with value := solveVals 0 j }) := by
  rw [icSolvedModel, solveEffect, mapVarsIdx_get?]
  rfl

theorem varUnSnap_eval (m : Model) (nfe ncp : Nat) (solveVals : Nat → Nat → Option Int)
    (j : Nat) :
    varUnSnap m nfe ncp solveVals j =
      ((m.vars[j]?).map (fun v => v.timeIdx == none && !v.fixed)).getD false := by
  have h1 : varUnSnap m nfe ncp solveVals j =
      (((m4of m nfe ncp solveVals).vars[j]?).map
        (fun v => v.timeIdx == none && !v.fixed)).getD false := rfl
  have h2 : (m4of m nfe ncp solveVals).vars = (icSolvedModel m nfe ncp solveVals).vars := rfl
  rw [h1, h2, icSolvedModel_vars_get?, Option.map_map]
  cases hv : m.vars[j]? with
  | none => rfl
  | some v =>
      simp only [Option.map_some', Option.getD_some, Function.comp]
      cases hf : v.fixed <;> simp [hf]

theorem runMain_done_conActive (m : Model) (nfe ncp : Nat) (ignoreDof : Bool)
    (pairs : Nat → List (Nat × Nat)) (dof : Model → Int)
    (solveOpt : Nat → Bool) (solveVals : Nat → Nat → Option Int)
    (h : (runMain m nfe ncp ignoreDof pairs dof solveOpt solveVals).err = none) (j : Nat) :
    (runMain m nfe ncp ignoreDof pairs dof solveOpt solveVals).final.conActive j =
      m.conActive j := by
  cases hg : (!ignoreDof && (dof m != 0)) with
  | true =>
      rw [runMain_eq_entryFail _ _ _ _ _ _ _ _ hg] at h
      simp at h
  | false =>
      cases h0 : solveOpt 0 with
      | false =>
          rw [runMain_eq_icFail _ _ _ _ _ _ _ _ hg h0] at h
          simp at h
      | true =>
          cases hr : (runElements ncp ignoreDof pairs dof solveOpt solveVals
              (get_activity_dict m) (loopEntry m nfe ncp solveVals)
              (pyRange 1 (nfe+1))).err with
          | some e =>
              rw [runMain_eq_loopFail _ _ _ _ _ _ _ _ e hg h0 hr] at h
              simp at h
          | none =>
              rw [runMain_eq_done _ _ _ _ _ _ _ _ hg h0 hr]
              dsimp only
              rw [Model.conActive, finalRestore]
              have hvc : ∀ (mm : Model) (f : Nat → VarData → VarData),
                  (mm.mapVarsIdx f).cons = mm.cons := fun mm f => rfl
              rw [hvc, mapConsIdx_get?, mapConsIdx_get?,
                runElements_succ_cons _ _ _ _ _ _ _ _ _ _ hr,
                loopEntry_cons_get?, conUnSnap_eval]
              simp only [Option.map_map]
              cases hc : m.cons[j]? with
              | none => simp [Model.conActive, hc]
              | some c =>
                  obtain ⟨cti, ca⟩ := c
                  have hsnap : get_activity_dict m j = ca := by
                    simp [get_activity_dict, Model.conActive, hc]
                  simp only [Option.map_some', Option.getD_some, Function.comp, hsnap,
                    Model.conActive, hc]
                  cases cti with
                  | none => cases ca <;> simp [optMem]
                  | some t =>
                      simp only [optMem_pyRange, optMem_fes, optMem_single]
                      by_cases ht1 : t = 1
                      · subst ht1
                        cases ca <;>
                          simp [optMem_pyRange, optMem_fes, optMem_single,
                            show ¬(2 ≤ 1 ∧ (1:Nat) < nfe*ncp+2) by omega,
                            show ¬(2 ≤ 1 ∧ (1:Nat) ≤ nfe*ncp+1) by omega,
                            show (1 ≤ 1 ∧ (1:Nat) < nfe*ncp+2) by omega]
                      · by_cases htn : 2 ≤ t ∧ t ≤ nfe*ncp+1
                        · cases ca <;>
                            simp [optMem_pyRange, optMem_fes, optMem_single,
                              ht1, htn, show (2 ≤ t ∧ t < nfe*ncp+2) by omega,
                              show (1 ≤ t ∧ t < nfe*ncp+2) by omega]
                        · cases ca <;>
                            simp [optMem_pyRange, optMem_fes, optMem_single,
                              ht1, htn, show ¬(2 ≤ t ∧ t < nfe*ncp+2) by omega,
                              show ¬(1 ≤ t ∧ t < nfe*ncp+2) by omega]

/-! ### Frame lemmas for one element step -/

theorem elementStep_conActive_frame (ncp : Nat) (ignoreDof : Bool)
    (pairs : Nat → List (Nat × Nat)) (dof : Model → Int)
    (solveOpt : Nat → Bool) (solveVals : Nat → Nat → Option Int)
    (snap : Nat → Bool) (m : Model) (i j : Nat)
    (hj : optMem (m.conTimeIdx j) (feIdxs i ncp) = false) :
    (elementStep ncp ignoreDof pairs dof solveOpt solveVals snap m i).model.conActive j =
      m.conActive j := by
  have hstep : ∀ (mm : Model), mm.cons[j]? = m.cons[j]? → mm.conActive j = m.conActive j := by
    intro mm hmm
    rw [Model.conActive, Model.conActive, hmm]
  have hprep : (elemPrep ncp pairs snap m i).1.conActive j = m.conActive j := by
    rw [Model.conActive, Model.conActive, elemPrep_fst_cons, elemReact_get?]
    cases hc : m.cons[j]? with
    | none => rfl
    | some c =>
        have hti : c.timeIdx = m.conTimeIdx j := by
          rw [Model.conTimeIdx, hc]
          rfl
        simp only [Option.map_some', Option.getD_some]
        rw [hti, hj]
        simp
  cases hg : (!ignoreDof && (dof (elemPrep ncp pairs snap m i).1 != 0)) with
  | true =>
      rw [elementStep_eq_dofFail _ _ _ _ _ _ _ _ _ hg]
      exact hprep
  | false =>
      cases hs : solveOpt i with
      | false =>
          rw [elementStep_eq_solveFail _ _ _ _ _ _ _ _ _ hg hs]
          dsimp only
          rw [Model.conActive, solveEffect_cons]
          rw [Model.conActive] at hprep
          exact hprep
      | true =>
          rw [elementStep_eq_succ _ _ _ _ _ _ _ _ _ hg hs]
          dsimp only
          rw [Model.conActive, elemFinish_cons, solveEffect_cons, elemPrep_fst_cons,
            elemReact_get?, Option.map_map]
          cases hc : m.cons[j]? with
          | none => simp [Model.conActive, hc]
          | some c =>
              have hti : c.timeIdx = m.conTimeIdx j := by
                rw [Model.conTimeIdx, hc]
                rfl
              simp only [Option.map_some', Option.getD_some, Function.comp]
              rw [hti, hj]
              simp [Model.conActive, hc, hj, hti]

theorem elementStep_varFixed_frame (ncp : Nat) (ignoreDof : Bool)
    (pairs : Nat → List (Nat × Nat)) (dof : Model → Int)
    (solveOpt : Nat → Bool) (solveVals : Nat → Nat → Option Int)
    (snap : Nat → Bool) (m : Model) (i j : Nat)
    (ha : j ∉ (pairs (tPrevIdx i ncp)).map Prod.fst)
    (hb : j ∉ (pairs (tPrevIdx i ncp)).map Prod.snd) :
    (elementStep ncp ignoreDof pairs dof solveOpt solveVals snap m i).model.varFixed j =
      m.varFixed j := by
  have hprep := (elemPrep_varFixed_frame ncp pairs snap m i j ha hb).1
  cases hg : (!ignoreDof && (dof (elemPrep ncp pairs snap m i).1 != 0)) with
  | true =>
      rw [elementStep_eq_dofFail _ _ _ _ _ _ _ _ _ hg]
      exact hprep
  | false =>
      cases hs : solveOpt i with
      | false =>
          rw [elementStep_eq_solveFail _ _ _ _ _ _ _ _ _ hg hs]
          dsimp only
          rw [solveEffect_varFixed]
          exact hprep
      | true =>
          rw [elementStep_eq_succ _ _ _ _ _ _ _ _ _ hg hs]
          dsimp only
          rw [elemFinish_varFixed_notmem _ _ _ _ _ _ ha hb, solveEffect_varFixed]
          exact hprep

/-! ### Run-level restoration of unindexed variables -/

theorem loopEntry_vars_get? (m : Model) (nfe ncp : Nat) (solveVals : Nat → Nat → Option Int)
    (j : Nat) :
    (loopEntry m nfe ncp solveVals).vars[j]? = (m.vars[j]?).map (fun v =>
      (fun v1 => if v1.timeIdx = none then { v1 with fixed := true } else v1)
      ((fun v0 => if v0.fixed then v0 else { v0 with value := solveVals 0 j }) v)) := by
  rw [loopEntry, fix_vars_unindexed_by]
  rw [mapVarsIdx_get?]
  have h2 : (m4of m nfe ncp solveVals).vars[j]? =
      (icSolvedModel m nfe ncp solveVals).vars[j]? := rfl
  rw [h2, icSolvedModel_vars_get?, Option.map_map]
  rfl

theorem unfixRecord_varFixed (X : Model) (r : Nat → Bool) (j : Nat) :
    (X.mapVarsIdx (fun j2 v => if r j2 then { v with fixed := false } else v)).varFixed j =
      (!(r j) && X.varFixed j) := by
  rw [varFixed_mapVarsIdx, Model.varFixed]
  cases X.vars[j]? with
  | none => cases r j <;> rfl
  | some v => cases hrj : r j <;> simp [hrj]

theorem runMain_done_varFixed_unindexed (m : Model) (nfe ncp : Nat) (ignoreDof : Bool)
    (pairs : Nat → List (Nat × Nat)) (dof : Model → Int)
    (solveOpt : Nat → Bool) (solveVals : Nat → Nat → Option Int)
    (h : (runMain m nfe ncp ignoreDof pairs dof solveOpt solveVals).err = none) (j : Nat)
    (hj : m.varTimeIdx j = none)
    (hnp : ∀ e, j ∉ (pairs (tPrevIdx e ncp)).map Prod.fst ∧
                j ∉ (pairs (tPrevIdx e ncp)).map Prod.snd) :
    (runMain m nfe ncp ignoreDof pairs dof solveOpt solveVals).final.varFixed j =
      m.varFixed j := by
  cases hg : (!ignoreDof && (dof m != 0)) with
  | true =>
      rw [runMain_eq_entryFail _ _ _ _ _ _ _ _ hg] at h
      simp at h
  | false =>
      cases h0 : solveOpt 0 with
      | false =>
          rw [runMain_eq_icFail _ _ _ _ _ _ _ _ hg h0] at h
          simp at h
      | true =>
          cases hr : (runElements ncp ignoreDof pairs dof solveOpt solveVals
              (get_activity_dict m) (loopEntry m nfe ncp solveVals)
              (pyRange 1 (nfe+1))).err with
          | some e =>
              rw [runMain_eq_loopFail _ _ _ _ _ _ _ _ e hg h0 hr] at h
              simp at h
          | none =>
              rw [runMain_eq_done _ _ _ _ _ _ _ _ hg h0 hr]
              dsimp only
              rw [finalRestore, unfixRecord_varFixed]
              have hcv : ∀ (mm : Model) (f g : Nat → ConData → ConData),
                  ((mm.mapConsIdx f).mapConsIdx g).varFixed j = mm.varFixed j :=
                fun mm f g => rfl
              rw [hcv]
              rw [runElements_varFixed_notpair ncp ignoreDof pairs dof solveOpt
                solveVals (get_activity_dict m) (pyRange 1 (nfe+1))
                (loopEntry m nfe ncp solveVals) j hnp]
              rw [varUnSnap_eval]
              cases hv : m.vars[j]? with
              | none =>
                  have hle : (loopEntry m nfe ncp solveVals).varFixed j = false := by
                    rw [Model.varFixed, loopEntry_vars_get?, hv]
                    rfl
                  rw [hle]
                  simp [Model.varFixed, hv]
              | some v =>
                  have hvt : v.timeIdx = none := by
                    rw [Model.varTimeIdx, hv] at hj
                    simpa using hj
                  have hle : (loopEntry m nfe ncp solveVals).varFixed j = true := by
                    rw [Model.varFixed, loopEntry_vars_get?, hv]
                    cases hf : v.fixed <;> simp [hvt, hf]
                  rw [hle]
                  cases hf : v.fixed <;> simp [Model.varFixed, hv, hvt, hf]

/-! ### solve_indexed_blocks helpers -/

theorem sibBuild_mem_nonBlock (n : Nat) (tmp : TmpBlockState) (i : Nat) (l : List PyObj)
    (h : PyObj.nonBlock ∈ l) : (sibBuild n tmp i l).1 = some .typeError := by
  induction l generalizing tmp i with
  | nil => cases h
  | cons b rest ih =>
      cases b with
      | nonBlock => rfl
      | block bid =>
          have h2 : PyObj.nonBlock ∈ rest := by
            rcases List.mem_cons.mp h with h1 | h1
            · exact absurd h1 (by simp)
            · exact h1
          exact ih _ _ h2

theorem sibBuild_all_blocks (n : Nat) (tmp : TmpBlockState) (i : Nat) (l : List PyObj)
    (h : ∀ b ∈ l, b ≠ PyObj.nonBlock) : (sibBuild n tmp i l).1 = none := by
  induction l generalizing tmp i with
  | nil => rfl
  | cons b rest ih =>
      cases b with
      | nonBlock => exact absurd rfl (h _ (List.mem_cons_self _ _))
      | block bid => exact ih _ _ (fun b2 hb => h b2 (List.mem_cons_of_mem _ hb))

/-! ### propagate_state helpers -/

/-- The instance of member `mi`, index position `ii`, of a port. -/
def instAt (p : List PortMember) (mi ii : Nat) : Option VarInst :=
  (p[mi]?).bind (fun d => d.insts[ii]?)

theorem writeDest_fixed (dest : List PortMember) (nm idx : Nat) (val : Option Int)
    (mi ii : Nat) (jv : VarInst) (hj : instAt dest mi ii = some jv) (hf : jv.fixed = true) :
    instAt (writeDest dest nm idx val) mi ii = some jv := by
  rw [instAt, writeDest, List.getElem?_map]
  rw [instAt] at hj
  cases hd : dest[mi]? with
  | none => rw [hd] at hj; cases hj
  | some d =>
      rw [hd] at hj
      have hj2 : d.insts[ii]? = some jv := hj
      simp only [Option.map_some', Option.some_bind]
      by_cases hn : (d.name == nm) = true
      · simp only [hn, if_true]
        show (d.insts.map _)[ii]? = some jv
        rw [List.getElem?_map, hj2]
        simp [hf]
      · simp only [hn]
        rw [if_neg (by simp at hn; simp [hn])]
        exact hj2

theorem copyInst_fixed (dest : List PortMember) (nm : Nat) (inst : VarInst)
    (mi ii : Nat) (jv : VarInst) (hj : instAt dest mi ii = some jv) (hf : jv.fixed = true) :
    instAt (copyInst dest nm inst).2 mi ii = some jv := by
  rw [copyInst]
  split
  · exact hj
  · split
    · exact hj
    · split
      · exact hj
      · exact writeDest_fixed _ _ _ _ _ _ _ hj hf

theorem copyInsts_fixed (nm : Nat) (insts : List VarInst) (dest : List PortMember)
    (mi ii : Nat) (jv : VarInst) (hj : instAt dest mi ii = some jv) (hf : jv.fixed = true) :
    instAt (copyInsts nm dest insts).2 mi ii = some jv := by
  induction insts generalizing dest with
  | nil => exact hj
  | cons inst rest ih =>
      show instAt (match copyInst dest nm inst with
        | (some e, d2) => (some e, d2)
        | (none, d2) => copyInsts nm d2 rest).2 mi ii = some jv
      have hci := copyInst_fixed dest nm inst mi ii jv hj hf
      rcases hcp : copyInst dest nm inst with ⟨e, d2⟩
      rw [hcp] at hci
      cases e with
      | some e2 => exact hci
      | none => exact ih d2 hci

theorem copyMembers_fixed (src : List PortMember) (dest : List PortMember)
    (mi ii : Nat) (jv : VarInst) (hj : instAt dest mi ii = some jv) (hf : jv.fixed = true) :
    instAt (copyMembers dest src).2 mi ii = some jv := by
  induction src generalizing dest with
  | nil => exact hj
  | cons srcM rest ih =>
      show instAt (match copyInsts srcM.name dest srcM.insts with
        | (some e, d2) => (some e, d2)
        | (none, d2) => copyMembers d2 rest).2 mi ii = some jv
      have hci := copyInsts_fixed srcM.name srcM.insts dest mi ii jv hj hf
      rcases hcp : copyInsts srcM.name dest srcM.insts with ⟨e, d2⟩
      rw [hcp] at hci
      cases e with
      | some e2 => exact hci
      | none => exact ih d2 hci

/-! ## Claim theorems -/

/-- The failing input for C1: variable 0 is a derivative at time point 1
with a value assigned; variable 1 is its paired differential variable with
no value assigned (`None`); neither is fixed. -/
def c1Model : Model := ⟨[], [⟨0, some 1, some 1, false⟩, ⟨1, some 1, none, false⟩]⟩

/-- C1: the claim states that in the fixing step each derivative and each
differential variable is fixed only if its own value is not `None`.  The
embedded fixing step (source lines 350–363, `fixPairsStep`) violates this
for differential variables: the gate `if not drv.value is None` reads the
loop variable `drv` left over from the derivative loop, so here the
differential variable 1, whose value is `None`, is nevertheless fixed
because the last derivative's value is not `None`.  This contradicts the
code's own comment ("Cannot fix variables with value None ... we don't
want to fix it"), so the claim is right and the code is wrong. -/
theorem claim_C1_fixing_gate_bug :
    c1Model.varValue 1 = none ∧ c1Model.varFixed 1 = false ∧
    (fixPairsStep c1Model [0] [1]).1.varFixed 1 = true ∧
    (fixPairsStep c1Model [0] [1]).1.varFixed 0 = true := by decide

/-- C4: with the time domain discretized, each of the Lagrange-Legendre,
Forward-Difference, Central-Difference and unrecognized schemes makes the
initializer fail with its own distinct error, with no solver call and the
model returned exactly as it came in (no mutation). -/
theorem claim_C4_scheme_rejection (m : Model) (nfe ncpIn : Nat) (ignoreDof : Bool)
    (pairs : Nat → List (Nat × Nat)) (dof : Model → Int)
    (solveOpt : Nat → Bool) (solveVals : Nat → Nat → Option Int) :
    initialize_by_time_element m true .lagrangeLegendre nfe ncpIn ignoreDof pairs dof
      solveOpt solveVals = ⟨some .legendreUnsupported, m, []⟩ ∧
    initialize_by_time_element m true .forwardDifference nfe ncpIn ignoreDof pairs dof
      solveOpt solveVals = ⟨some .forwardUnsupported, m, []⟩ ∧
    initialize_by_time_element m true .centralDifference nfe ncpIn ignoreDof pairs dof
      solveOpt solveVals = ⟨some .centralUnsupported, m, []⟩ ∧
    initialize_by_time_element m true .unrecognized nfe ncpIn ignoreDof pairs dof
      solveOpt solveVals = ⟨some .unrecognizedScheme, m, []⟩ ∧
    (InitError.legendreUnsupported ≠ InitError.forwardUnsupported ∧
     InitError.legendreUnsupported ≠ InitError.centralUnsupported ∧
     InitError.legendreUnsupported ≠ InitError.unrecognizedScheme ∧
     InitError.forwardUnsupported ≠ InitError.centralUnsupported ∧
     InitError.forwardUnsupported ≠ InitError.unrecognizedScheme ∧
     InitError.centralUnsupported ≠ InitError.unrecognizedScheme) :=
  ⟨rfl, rfl, rfl, rfl, by decide⟩

/-- C5: for every finite element index `i` (1-indexed) the element's
initial point is `time[(i-1)*ncp+1]` and its solved points are
`time[(i-1)*ncp+2]` through `time[i*ncp+1]` inclusive; in particular with
`ncp = 2`, element `i = 2` uses `t_prev = time[3]` and element points
`time[4..5]`. -/
theorem claim_C5_element_layout :
    (∀ i ncp k, k ∈ feIdxs i ncp ↔ (i-1)*ncp + 2 ≤ k ∧ k ≤ i*ncp + 1) ∧
    (∀ i ncp, tPrevIdx i ncp = (i-1)*ncp + 1) ∧
    tPrevIdx 2 2 = 3 ∧ feIdxs 2 2 = [4, 5] :=
  ⟨feIdxs_mem, fun _ _ => rfl, rfl, by decide⟩

/-- C2: if the run reaches `Done` (no error), every constraint's `active`
flag equals its value on entry: the activity snapshot, the deactivation
records and the final snapshot-gated reactivation round-trip the
active/inactive state exactly, for every constraint. -/
theorem claim_C2_roundtrip_activity (m : Model) (discretized : Bool) (scheme : Scheme)
    (nfe ncpIn : Nat) (ignoreDof : Bool) (pairs : Nat → List (Nat × Nat)) (dof : Model → Int)
    (solveOpt : Nat → Bool) (solveVals : Nat → Nat → Option Int)
    (h : (initialize_by_time_element m discretized scheme nfe ncpIn ignoreDof pairs dof
      solveOpt solveVals).err = none) (j : Nat) :
    (initialize_by_time_element m discretized scheme nfe ncpIn ignoreDof pairs dof
      solveOpt solveVals).final.conActive j = m.conActive j := by
  cases discretized with
  | false => simp [initialize_by_time_element] at h
  | true =>
      cases scheme with
      | lagrangeLegendre => simp [initialize_by_time_element] at h
      | forwardDifference => simp [initialize_by_time_element] at h
      | centralDifference => simp [initialize_by_time_element] at h
      | unrecognized => simp [initialize_by_time_element] at h
      | lagrangeRadau => exact runMain_done_conActive _ _ _ _ _ _ _ _ h j
      | backwardDifference => exact runMain_done_conActive _ _ _ _ _ _ _ _ h j

/-- A small model for concrete witnesses: two time-indexed constraints, one
active and one inactive unindexed constraint, and three variables (one
fixed at the initial point, one at the second point, one unindexed). -/
def wM : Model := ⟨[⟨some 1, true⟩, ⟨some 2, true⟩, ⟨none, true⟩, ⟨none, false⟩],
  [⟨0, some 1, some 5, true⟩, ⟨0, some 2, none, false⟩, ⟨1, none, some 3, false⟩]⟩

/-- Witness for C2 at a concrete successful run. -/
theorem claim_C2_roundtrip_activity_witness :
    (initialize_by_time_element wM true .backwardDifference 1 1 true
      (fun _ => []) (fun _ => 0) (fun _ => true) (fun _ _ => some 7)).final.conActive 3 =
      wM.conActive 3 :=
  claim_C2_roundtrip_activity wM true .backwardDifference 1 1 true
    (fun _ => []) (fun _ => 0) (fun _ => true) (fun _ _ => some 7) (by decide) 3

theorem range_succ_split (k : Nat) (hk : 1 ≤ k) :
    List.range (k+1) = 0 :: (List.range' 1 (k-1) ++ [k]) := by
  rw [List.range_eq_range']
  have h1 : k+1 = ((k-1)+1)+1 := by omega
  rw [h1, List.range'_succ, List.range'_concat]
  have h2 : 1 + 1*(k-1) = k := by omega
  rw [h2]

theorem runMain_elementFail (m : Model) (nfe ncp : Nat) (ignoreDof : Bool)
    (pairs : Nat → List (Nat × Nat)) (dof : Model → Int)
    (solveOpt : Nat → Bool) (solveVals : Nat → Nat → Option Int) (k : Nat)
    (h : (runMain m nfe ncp ignoreDof pairs dof solveOpt solveVals).err =
      some (.elementSolveFailed k)) :
    1 ≤ k ∧ k ≤ nfe ∧
      (runMain m nfe ncp ignoreDof pairs dof solveOpt solveVals).calls =
        List.range (k+1) := by
  cases hg : (!ignoreDof && (dof m != 0)) with
  | true =>
      rw [runMain_eq_entryFail _ _ _ _ _ _ _ _ hg] at h
      simp at h
  | false =>
      cases h0 : solveOpt 0 with
      | false =>
          rw [runMain_eq_icFail _ _ _ _ _ _ _ _ hg h0] at h
          simp at h
      | true =>
          cases hr : (runElements ncp ignoreDof pairs dof solveOpt solveVals
              (get_activity_dict m) (loopEntry m nfe ncp solveVals)
              (pyRange 1 (nfe+1))).err with
          | none =>
              rw [runMain_eq_done _ _ _ _ _ _ _ _ hg h0 hr] at h
              simp at h
          | some e =>
              rw [runMain_eq_loopFail _ _ _ _ _ _ _ _ e hg h0 hr] at h ⊢
              dsimp only at h ⊢
              have he : e = .elementSolveFailed k := Option.some.inj h
              subst he
              obtain ⟨pre, post, hsplit, hcalls⟩ :=
                runElements_fail_calls _ _ _ _ _ _ _ _ _ _ hr
              have hrange : List.range' 1 nfe = pre ++ k :: post := by
                have : pyRange 1 (nfe+1) = List.range' 1 nfe := rfl
                rw [← this]
                exact hsplit
              have hkmem : k ∈ List.range' 1 nfe := by
                rw [hrange]
                simp
              rw [List.mem_range'_1] at hkmem
              have hpre : pre = List.range' 1 (k-1) := by
                have := range'_split 1 nfe k pre post hrange
                simpa using this
              refine ⟨hkmem.1, by omega, ?_⟩
              rw [hcalls, hpre, range_succ_split k hkmem.1]

/-- C3: if the solve for finite element `k` terminates non-optimally, the
run fails with the element-solve error carrying `k`, `k` lies in `1..nfe`,
and the solver calls made are exactly the consistent-IC solve (`0`) and the
element solves `1..k` in order — no element past `k` is ever attempted. -/
theorem claim_C3_element_failure_stops (m : Model) (discretized : Bool) (scheme : Scheme)
    (nfe ncpIn : Nat) (ignoreDof : Bool) (pairs : Nat → List (Nat × Nat)) (dof : Model → Int)
    (solveOpt : Nat → Bool) (solveVals : Nat → Nat → Option Int) (k : Nat)
    (h : (initialize_by_time_element m discretized scheme nfe ncpIn ignoreDof pairs dof
      solveOpt solveVals).err = some (.elementSolveFailed k)) :
    1 ≤ k ∧ k ≤ nfe ∧
      (initialize_by_time_element m discretized scheme nfe ncpIn ignoreDof pairs dof
        solveOpt solveVals).calls = List.range (k+1) ∧
      ∀ x ∈ (initialize_by_time_element m discretized scheme nfe ncpIn ignoreDof pairs dof
        solveOpt solveVals).calls, x ≤ k := by
  cases discretized with
  | false => simp [initialize_by_time_element] at h
  | true =>
      cases scheme with
      | lagrangeLegendre => simp [initialize_by_time_element] at h
      | forwardDifference => simp [initialize_by_time_element] at h
      | centralDifference => simp [initialize_by_time_element] at h
      | unrecognized => simp [initialize_by_time_element] at h
      | lagrangeRadau =>
          obtain ⟨h1, h2, h3⟩ := runMain_elementFail _ _ _ _ _ _ _ _ _ h
          have h4 : (initialize_by_time_element m true .lagrangeRadau nfe ncpIn ignoreDof
              pairs dof solveOpt solveVals).calls = List.range (k+1) := h3
          refine ⟨h1, h2, h4, ?_⟩
          intro x hx
          rw [h4, List.mem_range] at hx
          omega
      | backwardDifference =>
          obtain ⟨h1, h2, h3⟩ := runMain_elementFail _ _ _ _ _ _ _ _ _ h
          have h4 : (initialize_by_time_element m true .backwardDifference nfe ncpIn ignoreDof
              pairs dof solveOpt solveVals).calls = List.range (k+1) := h3
          refine ⟨h1, h2, h4, ?_⟩
          intro x hx
          rw [h4, List.mem_range] at hx
          omega

/-- Witness for C3: a run of 5 backward-difference elements in which the
solver first fails on the call for element 3; the calls made are exactly
`[0, 1, 2, 3]`, so elements 4 and 5 are never attempted. -/
theorem claim_C3_element_failure_stops_witness :
    1 ≤ 3 ∧ 3 ≤ 5 ∧
      (initialize_by_time_element wM true .backwardDifference 5 1 true
        (fun _ => []) (fun _ => 0) (fun c => c < 3) (fun _ _ => some 7)).calls =
        List.range 4 ∧
      ∀ x ∈ (initialize_by_time_element wM true .backwardDifference 5 1 true
        (fun _ => []) (fun _ => 0) (fun c => c < 3) (fun _ _ => some 7)).calls, x ≤ 3 :=
  claim_C3_element_failure_stops wM true .backwardDifference 5 1 true
    (fun _ => []) (fun _ => 0) (fun c => c < 3) (fun _ _ => some 7) 3 (by decide)

/-- C6: degrees-of-freedom gating.  (i) With `ignore_dof` true the run never
fails with the nonzero-DOF error.  (ii) With a supported scheme,
`ignore_dof` false and nonzero degrees of freedom at entry, the run fails
with the nonzero-DOF error before any solver call and without touching the
model.  (iii) Before every per-element solve: with `ignore_dof` false and
nonzero degrees of freedom at the element's gate (the model after steps
(a)–(e), where source line 374 evaluates `degrees_of_freedom`), the step
fails with the nonzero-DOF error and makes no solver call.  (iv) Conversely,
whenever a per-element step fails its DOF gate, `ignore_dof` is false and
that step made no solver call.  (v) With `ignore_dof` true and a supported
scheme, any failure is a solve failure (consistent-IC or element), never
the DOF precondition. -/
theorem claim_C6_dof_gating (m : Model) (discretized : Bool) (scheme : Scheme)
    (nfe ncpIn : Nat) (ignoreDof : Bool) (pairs : Nat → List (Nat × Nat)) (dof : Model → Int)
    (solveOpt : Nat → Bool) (solveVals : Nat → Nat → Option Int) :
    (ignoreDof = true →
      (initialize_by_time_element m discretized scheme nfe ncpIn ignoreDof pairs dof
        solveOpt solveVals).err ≠ some .nonzeroDOF) ∧
    (discretized = true → (scheme = .lagrangeRadau ∨ scheme = .backwardDifference) →
      ignoreDof = false → dof m ≠ 0 →
      initialize_by_time_element m discretized scheme nfe ncpIn ignoreDof pairs dof
        solveOpt solveVals = ⟨some .nonzeroDOF, m, []⟩) ∧
    (∀ (ncp2 : Nat) (snap : Nat → Bool) (m2 : Model) (i : Nat),
      ignoreDof = false → dof (elemPrep ncp2 pairs snap m2 i).1 ≠ 0 →
      elementStep ncp2 ignoreDof pairs dof solveOpt solveVals snap m2 i =
        ⟨some .nonzeroDOF, (elemPrep ncp2 pairs snap m2 i).1,
          (elemPrep ncp2 pairs snap m2 i).2, []⟩) ∧
    (∀ (ncp2 : Nat) (snap : Nat → Bool) (m2 : Model) (i : Nat),
      (elementStep ncp2 ignoreDof pairs dof solveOpt solveVals snap m2 i).err =
        some .nonzeroDOF →
      ignoreDof = false ∧
        (elementStep ncp2 ignoreDof pairs dof solveOpt solveVals snap m2 i).calls = []) ∧
    (ignoreDof = true → discretized = true →
      (scheme = .lagrangeRadau ∨ scheme = .backwardDifference) →
      (initialize_by_time_element m discretized scheme nfe ncpIn ignoreDof pairs dof
        solveOpt solveVals).err = none ∨
      (initialize_by_time_element m discretized scheme nfe ncpIn ignoreDof pairs dof
        solveOpt solveVals).err = some .icSolveFailed ∨
      ∃ k, (initialize_by_time_element m discretized scheme nfe ncpIn ignoreDof pairs dof
        solveOpt solveVals).err = some (.elementSolveFailed k)) := by
  have hmain_nodof : ∀ (ncp2 : Nat),
      (runMain m nfe ncp2 true pairs dof solveOpt solveVals).err ≠ some .nonzeroDOF := by
    intro ncp2
    cases h0 : solveOpt 0 with
    | false =>
        rw [runMain_eq_icFail _ _ _ _ _ _ _ _ (by rfl) h0]
        intro hc
        simp at hc
    | true =>
        cases hr : (runElements ncp2 true pairs dof solveOpt solveVals
            (get_activity_dict m) (loopEntry m nfe ncp2 solveVals)
            (pyRange 1 (nfe+1))).err with
        | none =>
            rw [runMain_eq_done _ _ _ _ _ _ _ _ (by rfl) h0 hr]
            intro hc
            simp at hc
        | some e =>
            rw [runMain_eq_loopFail _ _ _ _ _ _ _ _ e (by rfl) h0 hr]
            intro hc
            have he : e = .nonzeroDOF := by
              have := Option.some.inj hc
              exact this
            subst he
            exact runElements_nodof _ _ _ _ _ _ _ _ hr
  have hmain_only_solve : ∀ (ncp2 : Nat),
      (runMain m nfe ncp2 true pairs dof solveOpt solveVals).err = none ∨
      (runMain m nfe ncp2 true pairs dof solveOpt solveVals).err = some .icSolveFailed ∨
      ∃ k, (runMain m nfe ncp2 true pairs dof solveOpt solveVals).err =
        some (.elementSolveFailed k) := by
    intro ncp2
    cases h0 : solveOpt 0 with
    | false =>
        rw [runMain_eq_icFail _ _ _ _ _ _ _ _ (by rfl) h0]
        right; left; rfl
    | true =>
        cases hr : (runElements ncp2 true pairs dof solveOpt solveVals
            (get_activity_dict m) (loopEntry m nfe ncp2 solveVals)
            (pyRange 1 (nfe+1))).err with
        | none =>
            rw [runMain_eq_done _ _ _ _ _ _ _ _ (by rfl) h0 hr]
            left; rfl
        | some e =>
            rw [runMain_eq_loopFail _ _ _ _ _ _ _ _ e (by rfl) h0 hr]
            rcases runElements_err_cases ncp2 true pairs dof solveOpt solveVals
              (get_activity_dict m) (pyRange 1 (nfe+1))
              (loopEntry m nfe ncp2 solveVals) with hcase | hcase | ⟨k2, hcase⟩
            · rw [hr] at hcase
              simp at hcase
            · exact absurd hcase (runElements_nodof _ _ _ _ _ _ _ _)
            · rw [hr] at hcase
              have : e = .elementSolveFailed k2 := Option.some.inj hcase
              subst this
              right; right; exact ⟨k2, rfl⟩
  refine ⟨?_, ?_, ?_, ?_, ?_⟩
  · intro hid
    subst hid
    cases discretized with
    | false => simp [initialize_by_time_element]
    | true =>
        cases scheme with
        | lagrangeLegendre => simp [initialize_by_time_element]
        | forwardDifference => simp [initialize_by_time_element]
        | centralDifference => simp [initialize_by_time_element]
        | unrecognized => simp [initialize_by_time_element]
        | lagrangeRadau => exact hmain_nodof ncpIn
        | backwardDifference => exact hmain_nodof 1
  · intro hd hs hid hdof
    subst hd
    subst hid
    rcases hs with hs | hs <;> subst hs
    · exact runMain_eq_entryFail _ _ _ _ _ _ _ _ (by simp [hdof])
    · exact runMain_eq_entryFail _ _ _ _ _ _ _ _ (by simp [hdof])
  · intro ncp2 snap m2 i hid hdof
    subst hid
    exact elementStep_eq_dofFail _ _ _ _ _ _ _ _ _ (by simp [hdof])
  · intro ncp2 snap m2 i herr
    cases hg : (!ignoreDof && (dof (elemPrep ncp2 pairs snap m2 i).1 != 0)) with
    | true =>
        rw [elementStep_eq_dofFail _ _ _ _ _ _ _ _ _ hg]
        have hid : ignoreDof = false := by
          rcases Bool.and_eq_true _ _ |>.mp hg with ⟨h1, -⟩
          revert h1
          cases ignoreDof <;> simp
        exact ⟨hid, rfl⟩
    | false =>
        cases hs : solveOpt i with
        | false =>
            rw [elementStep_eq_solveFail _ _ _ _ _ _ _ _ _ hg hs] at herr
            simp at herr
        | true =>
            rw [elementStep_eq_succ _ _ _ _ _ _ _ _ _ hg hs] at herr
            simp at herr
  · intro hid hd hs
    subst hid
    subst hd
    rcases hs with hs | hs <;> subst hs
    · exact hmain_only_solve ncpIn
    · exact hmain_only_solve 1

/-- Witness for C6 at a concrete input: with `ignore_dof = false` and a DOF
oracle reporting 1, the run fails with the nonzero-DOF error, makes no
solver call and leaves the model untouched; and a per-element step under
the same oracle fails its gate with the nonzero-DOF error and an empty
call list. -/
theorem claim_C6_dof_gating_witness :
    (initialize_by_time_element wM true .backwardDifference 2 1 false
      (fun _ => []) (fun _ => 1) (fun _ => true) (fun _ _ => some 7) =
      ⟨some .nonzeroDOF, wM, []⟩) ∧
    ((elementStep 1 false (fun _ => []) (fun _ => 1) (fun _ => true)
        (fun _ _ => some 7) (fun _ => true) wM 1).err = some .nonzeroDOF ∧
      (elementStep 1 false (fun _ => []) (fun _ => 1) (fun _ => true)
        (fun _ _ => some 7) (fun _ => true) wM 1).calls = []) := by
  constructor
  · exact (claim_C6_dof_gating wM true .backwardDifference 2 1 false
      (fun _ => []) (fun _ => 1) (fun _ => true) (fun _ _ => some 7)).2.1
      rfl (Or.inr rfl) rfl (by decide)
  · have h := (claim_C6_dof_gating wM true .backwardDifference 2 1 false
      (fun _ => []) (fun _ => 1) (fun _ => true) (fun _ _ => some 7)).2.2.1
      1 (fun _ => true) wM 1 rfl (by decide)
    rw [h]
    exact ⟨rfl, rfl⟩

/-- C8: after a finite element's iteration completes (no error), the
`fixed` flag of every derivative and differential variable of the
element's initial point equals its entry in the step-(d)
`was_originally_fixed` snapshot: variables whose snapshot entry is false
are unfixed again, and variables whose snapshot entry is true remain
fixed. -/
theorem claim_C8_fixed_restored (ncp : Nat) (ignoreDof : Bool)
    (pairs : Nat → List (Nat × Nat)) (dof : Model → Int)
    (solveOpt : Nat → Bool) (solveVals : Nat → Nat → Option Int)
    (snap : Nat → Bool) (m : Model) (i j : Nat)
    (herr : (elementStep ncp ignoreDof pairs dof solveOpt solveVals snap m i).err = none)
    (hj : j ∈ (pairs (tPrevIdx i ncp)).map Prod.fst ∨
          j ∈ (pairs (tPrevIdx i ncp)).map Prod.snd) :
    (elementStep ncp ignoreDof pairs dof solveOpt solveVals snap m i).model.varFixed j =
      (elementStep ncp ignoreDof pairs dof solveOpt solveVals snap m i).wasFixed j := by
  cases hg : (!ignoreDof && (dof (elemPrep ncp pairs snap m i).1 != 0)) with
  | true =>
      rw [elementStep_eq_dofFail _ _ _ _ _ _ _ _ _ hg] at herr
      simp at herr
  | false =>
      cases hs : solveOpt i with
      | false =>
          rw [elementStep_eq_solveFail _ _ _ _ _ _ _ _ _ hg hs] at herr
          simp at herr
      | true =>
          rw [elementStep_eq_succ _ _ _ _ _ _ _ _ _ hg hs]
          dsimp only
          refine elemFinish_varFixed_mem _ _ _ _ _ _ ?_ hj
          intro x hx
          rw [solveEffect_varFixed]
          exact elemPrep_snapInv _ _ _ _ _ x hx

/-- Witness for C8: a concrete element step over one derivative/differential
pair, both unfixed on entry; after the step both are unfixed again, equal
to their snapshot entries. -/
theorem claim_C8_fixed_restored_witness :
    (elementStep 1 true (fun _ => [(0, 1)]) (fun _ => 0) (fun _ => true)
      (fun _ _ => some 4) (fun _ => true) c1Model 1).model.varFixed 0 =
      (elementStep 1 true (fun _ => [(0, 1)]) (fun _ => 0) (fun _ => true)
        (fun _ _ => some 4) (fun _ => true) c1Model 1).wasFixed 0 :=
  claim_C8_fixed_restored 1 true (fun _ => [(0, 1)]) (fun _ => 0) (fun _ => true)
    (fun _ _ => some 4) (fun _ => true) c1Model 1 0 (by decide) (by decide)

/-- C7: the components handled by `deactivate_constraints_unindexed_by` and
`fix_vars_unindexed_by` (those not indexed by time) are untouched by every
per-element iteration — no step reactivates such a constraint or unfixes
such a variable — and they are restored only by the final restoration: on a
run that reaches `Done`, every time-unindexed constraint ends with its
entry `active` flag and every time-unindexed variable with its entry
`fixed` flag.  The variable parts assume the derivative-pairing contract of
§4.4: every pair returned for a time point consists of variables indexed at
that point. -/
theorem claim_C7_unindexed_stay_put (ncp : Nat) (ignoreDof : Bool)
    (pairs : Nat → List (Nat × Nat)) (dof : Model → Int)
    (solveOpt : Nat → Bool) (solveVals : Nat → Nat → Option Int) :
    (∀ (snap : Nat → Bool) (m2 : Model) (i j : Nat), m2.conTimeIdx j = none →
      (elementStep ncp ignoreDof pairs dof solveOpt solveVals snap m2 i).model.conActive j =
        m2.conActive j) ∧
    (∀ (snap : Nat → Bool) (m2 : Model) (i j : Nat),
      (∀ t d x, (d, x) ∈ pairs t →
        m2.varTimeIdx d = some t ∧ m2.varTimeIdx x = some t) →
      m2.varTimeIdx j = none →
      (elementStep ncp ignoreDof pairs dof solveOpt solveVals snap m2 i).model.varFixed j =
        m2.varFixed j) ∧
    (∀ (m : Model) (nfe j : Nat),
      (runMain m nfe ncp ignoreDof pairs dof solveOpt solveVals).err = none →
      m.conTimeIdx j = none →
      (runMain m nfe ncp ignoreDof pairs dof solveOpt solveVals).final.conActive j =
        m.conActive j) ∧
    (∀ (m : Model) (nfe j : Nat),
      (runMain m nfe ncp ignoreDof pairs dof solveOpt solveVals).err = none →
      (∀ t d x, (d, x) ∈ pairs t →
        m.varTimeIdx d = some t ∧ m.varTimeIdx x = some t) →
      m.varTimeIdx j = none →
      (runMain m nfe ncp ignoreDof pairs dof solveOpt solveVals).final.varFixed j =
        m.varFixed j) := by
  have hnotpair : ∀ (m2 : Model) (j : Nat),
      (∀ t d x, (d, x) ∈ pairs t →
        m2.varTimeIdx d = some t ∧ m2.varTimeIdx x = some t) →
      m2.varTimeIdx j = none →
      ∀ e, j ∉ (pairs (tPrevIdx e ncp)).map Prod.fst ∧
           j ∉ (pairs (tPrevIdx e ncp)).map Prod.snd := by
    intro m2 j hWF hj e
    constructor
    · intro hc
      obtain ⟨p, hp, hpj⟩ := List.mem_map.mp hc
      have hwf := (hWF (tPrevIdx e ncp) p.1 p.2 (by rw [Prod.mk.eta]; exact hp)).1
      rw [hpj] at hwf
      rw [hj] at hwf
      cases hwf
    · intro hc
      obtain ⟨p, hp, hpj⟩ := List.mem_map.mp hc
      have hwf := (hWF (tPrevIdx e ncp) p.1 p.2 (by rw [Prod.mk.eta]; exact hp)).2
      rw [hpj] at hwf
      rw [hj] at hwf
      cases hwf
  refine ⟨?_, ?_, ?_, ?_⟩
  · intro snap m2 i j hj
    refine elementStep_conActive_frame _ _ _ _ _ _ _ _ _ _ ?_
    rw [hj]
    rfl
  · intro snap m2 i j hWF hj
    obtain ⟨ha, hb⟩ := hnotpair m2 j hWF hj i
    exact elementStep_varFixed_frame _ _ _ _ _ _ _ _ _ _ ha hb
  · intro m nfe j herr hj
    exact runMain_done_conActive _ _ _ _ _ _ _ _ herr j
  · intro m nfe j herr hWF hj
    exact runMain_done_varFixed_unindexed _ _ _ _ _ _ _ _ herr j hj
      (hnotpair m j hWF hj)

/-- Witness for C7: in a concrete run, the unindexed fixed/active state of
`wM` (constraint 2 and variable 2) is reproduced at `Done`. -/
theorem claim_C7_unindexed_stay_put_witness :
    (runMain wM 1 1 true (fun _ => []) (fun _ => 0) (fun _ => true)
      (fun _ _ => some 7)).final.varFixed 2 = wM.varFixed 2 :=
  (claim_C7_unindexed_stay_put 1 true (fun _ => []) (fun _ => 0) (fun _ => true)
    (fun _ _ => some 7)).2.2.2 wM 1 2 (by decide)
    (fun t d x hdx => absurd hdx (by simp)) (by decide)

/-- C9: `solve_indexed_blocks` always leaves the temporary block's internal
bookkeeping (`_decl`, `_decl_order`, `_ctypes`) empty, on every exit path:
when the solver call succeeds, when a non-Block member raises `TypeError`,
and when the solver call raises. -/
theorem claim_C9_tmp_block_released (blocks : List PyObj) (solverResult : Except Unit Nat) :
    (solve_indexed_blocks blocks solverResult).2 = ⟨[], [], []⟩ ∧
    (PyObj.nonBlock ∈ blocks →
      (solve_indexed_blocks blocks solverResult).1 = .error .typeError) ∧
    ((∀ b ∈ blocks, b ≠ PyObj.nonBlock) → ∀ r, solverResult = .ok r →
      (solve_indexed_blocks blocks solverResult).1 = .ok r) ∧
    ((∀ b ∈ blocks, b ≠ PyObj.nonBlock) → solverResult = .error () →
      (solve_indexed_blocks blocks solverResult).1 = .error .solverRaised) := by
  refine ⟨?_, ?_, ?_, ?_⟩
  · rw [solve_indexed_blocks]
    rcases hsb : sibBuild blocks.length ⟨[], [], []⟩ 0 blocks with ⟨f, t⟩
    cases f with
    | none => cases solverResult <;> rfl
    | some e => rfl
  · intro hmem
    have hb := sibBuild_mem_nonBlock blocks.length ⟨[], [], []⟩ 0 blocks hmem
    rw [solve_indexed_blocks]
    rcases hsb : sibBuild blocks.length ⟨[], [], []⟩ 0 blocks with ⟨f, t⟩
    rw [hsb] at hb
    dsimp at hb
    subst hb
    rfl
  · intro hall r hok
    have hb := sibBuild_all_blocks blocks.length ⟨[], [], []⟩ 0 blocks hall
    rw [solve_indexed_blocks]
    rcases hsb : sibBuild blocks.length ⟨[], [], []⟩ 0 blocks with ⟨f, t⟩
    rw [hsb] at hb
    dsimp at hb
    subst hb
    subst hok
    rfl
  · intro hall herr
    have hb := sibBuild_all_blocks blocks.length ⟨[], [], []⟩ 0 blocks hall
    rw [solve_indexed_blocks]
    rcases hsb : sibBuild blocks.length ⟨[], [], []⟩ 0 blocks with ⟨f, t⟩
    rw [hsb] at hb
    dsimp at hb
    subst hb
    subst herr
    rfl

/-- Witness for C9: a concrete call containing a non-Block member raises
`TypeError` and leaves the bookkeeping empty. -/
theorem claim_C9_tmp_block_released_witness :
    (solve_indexed_blocks [PyObj.block 4, PyObj.nonBlock] (.ok 2)).1 =
      .error .typeError :=
  (claim_C9_tmp_block_released [PyObj.block 4, PyObj.nonBlock] (.ok 2)).2.1 (by decide)

/-- C10: `propagate_state` never modifies a destination port member
instance that is fixed, never modifies the port acting as value source
(`stream.source` for "forward", `stream.destination` for "backward"), and
for any direction other than "forward"/"backward" it raises `ValueError`
before copying anything, leaving both ports unchanged. -/
theorem claim_C10_propagate_state_frame (stream : ArcPorts) (direction : String) :
    (direction ≠ "forward" → direction ≠ "backward" →
      propagate_state stream direction = (some .valueError, stream)) ∧
    ((propagate_state stream "forward").2.source = stream.source) ∧
    (∀ mi ii jv, instAt stream.destination mi ii = some jv → jv.fixed = true →
      instAt (propagate_state stream "forward").2.destination mi ii = some jv) ∧
    ((propagate_state stream "backward").2.destination = stream.destination) ∧
    (∀ mi ii jv, instAt stream.source mi ii = some jv → jv.fixed = true →
      instAt (propagate_state stream "backward").2.source mi ii = some jv) := by
  refine ⟨?_, ?_, ?_, ?_, ?_⟩
  · intro h1 h2
    rw [propagate_state, if_neg h1, if_neg h2]
  · rw [propagate_state, if_pos rfl]
  · intro mi ii jv hj hf
    rw [propagate_state, if_pos rfl]
    exact copyMembers_fixed stream.source stream.destination mi ii jv hj hf
  · rw [propagate_state, if_neg (by decide), if_pos rfl]
  · intro mi ii jv hj hf
    rw [propagate_state, if_neg (by decide), if_pos rfl]
    exact copyMembers_fixed stream.destination stream.source mi ii jv hj hf

/-- Witness for C10: a concrete arc with a fixed destination instance; a
bogus direction leaves the stream unchanged, and the fixed instance
survives a forward propagation untouched. -/
theorem claim_C10_propagate_state_frame_witness :
    propagate_state ⟨[⟨0, true, [⟨0, some 3, false⟩]⟩],
        [⟨0, true, [⟨0, none, false⟩, ⟨1, some 9, true⟩]⟩]⟩ "sideways" =
      (some .valueError, ⟨[⟨0, true, [⟨0, some 3, false⟩]⟩],
        [⟨0, true, [⟨0, none, false⟩, ⟨1, some 9, true⟩]⟩]⟩) ∧
    instAt (propagate_state ⟨[⟨0, true, [⟨0, some 3, false⟩]⟩],
        [⟨0, true, [⟨0, none, false⟩, ⟨1, some 9, true⟩]⟩]⟩ "forward").2.destination 0 1 =
      some ⟨1, some 9, true⟩ := by
  constructor
  · exact (claim_C10_propagate_state_frame _ "sideways").1 (by decide) (by decide)
  · exact (claim_C10_propagate_state_frame _ "forward").2.2.1 0 1 ⟨1, some 9, true⟩
      (by decide) rfl
